import Mathlib

/-!
Shallow embedding of the core of the fast-tlsh library (a TLSH fuzzy-hash
implementation) together with proofs about its specification claims.

Each definition mirrors one function of the Rust source; the module and
function it comes from is named in its doc comment.
-/

set_option maxRecDepth 10000

/-- The Pearson substitution table (`SUBST_TABLE` in `pearson.rs`). -/
def SUBST_TABLE : List Nat := [
  0x01, 0x57, 0x31, 0x0c, 0xb0, 0xb2, 0x66, 0xa6, 0x79, 0xc1, 0x06, 0x54, 0xf9, 0xe6, 0x2c, 0xa3,
  0x0e, 0xc5, 0xd5, 0xb5, 0xa1, 0x55, 0xda, 0x50, 0x40, 0xef, 0x18, 0xe2, 0xec, 0x8e, 0x26, 0xc8,
  0x6e, 0xb1, 0x68, 0x67, 0x8d, 0xfd, 0xff, 0x32, 0x4d, 0x65, 0x51, 0x12, 0x2d, 0x60, 0x1f, 0xde,
  0x19, 0x6b, 0xbe, 0x46, 0x56, 0xed, 0xf0, 0x22, 0x48, 0xf2, 0x14, 0xd6, 0xf4, 0xe3, 0x95, 0xeb,
  0x61, 0xea, 0x39, 0x16, 0x3c, 0xfa, 0x52, 0xaf, 0xd0, 0x05, 0x7f, 0xc7, 0x6f, 0x3e, 0x87, 0xf8,
  0xae, 0xa9, 0xd3, 0x3a, 0x42, 0x9a, 0x6a, 0xc3, 0xf5, 0xab, 0x11, 0xbb, 0xb6, 0xb3, 0x00, 0xf3,
  0x84, 0x38, 0x94, 0x4b, 0x80, 0x85, 0x9e, 0x64, 0x82, 0x7e, 0x5b, 0x0d, 0x99, 0xf6, 0xd8, 0xdb,
  0x77, 0x44, 0xdf, 0x4e, 0x53, 0x58, 0xc9, 0x63, 0x7a, 0x0b, 0x5c, 0x20, 0x88, 0x72, 0x34, 0x0a,
  0x8a, 0x1e, 0x30, 0xb7, 0x9c, 0x23, 0x3d, 0x1a, 0x8f, 0x4a, 0xfb, 0x5e, 0x81, 0xa2, 0x3f, 0x98,
  0xaa, 0x07, 0x73, 0xa7, 0xf1, 0xce, 0x03, 0x96, 0x37, 0x3b, 0x97, 0xdc, 0x5a, 0x35, 0x17, 0x83,
  0x7d, 0xad, 0x0f, 0xee, 0x4f, 0x5f, 0x59, 0x10, 0x69, 0x89, 0xe1, 0xe0, 0xd9, 0xa0, 0x25, 0x7b,
  0x76, 0x49, 0x02, 0x9d, 0x2e, 0x74, 0x09, 0x91, 0x86, 0xe4, 0xcf, 0xd4, 0xca, 0xd7, 0x45, 0xe5,
  0x1b, 0xbc, 0x43, 0x7c, 0xa8, 0xfc, 0x2a, 0x04, 0x1d, 0x6c, 0x15, 0xf7, 0x13, 0xcd, 0x27, 0xcb,
  0xe9, 0x28, 0xba, 0x93, 0xc6, 0xc0, 0x9b, 0x21, 0xa4, 0xbf, 0x62, 0xcc, 0xa5, 0xb4, 0x75, 0x4c,
  0x8c, 0x24, 0xd2, 0xac, 0x29, 0x36, 0x9f, 0x08, 0xb9, 0xe8, 0x71, 0xc4, 0xe7, 0x2f, 0x92, 0x78,
  0x33, 0x41, 0x1c, 0x90, 0xfe, 0xdd, 0x5d, 0xbd, 0xc2, 0x8b, 0x70, 0x2b, 0x47, 0x6d, 0xb8, 0xd1]

/-- The 48-bucket substitution table (`SUBST_TABLE_48` in `pearson.rs`):
entry x of `SUBST_TABLE` becomes `x % 48` when `x < 240` and `48` otherwise. -/
def SUBST_TABLE_48 : List Nat :=
  SUBST_TABLE.map (fun x => if 240 <= x then 48 else x % 48)

/-- Top (maximum, inclusive) data length for each 8-bit length code
(`TOP_VALUE_BY_ENCODING` in `internals/length.rs`, 170 entries). -/
def TOP_VALUE_BY_ENCODING : List Nat := [
  1, 2, 3, 5, 7, 11, 17, 25,
  38, 57, 86, 129, 194, 291, 437, 656,
  854, 1110, 1443, 1876, 2439, 3171, 3475, 3823,
  4205, 4626, 5088, 5597, 6157, 6772, 7450, 8195,
  9014, 9916, 10907, 11998, 13198, 14518, 15970, 17567,
  19323, 21256, 23382, 25720, 28292, 31121, 34233, 37656,
  41422, 45564, 50121, 55133, 60646, 66711, 73382, 80721,
  88793, 97672, 107439, 118183, 130002, 143002, 157302, 173032,
  190335, 209369, 230306, 253337, 278670, 306538, 337191, 370911,
  408002, 448802, 493682, 543050, 597356, 657091, 722800, 795081,
  874589, 962048, 1058252, 1164078, 1280486, 1408534, 1549388, 1704327,
  1874759, 2062236, 2268459, 2495305, 2744836, 3019320, 3321252, 3653374,
  4018711, 4420582, 4862641, 5348905, 5883796, 6472176, 7119394, 7831333,
  8614467, 9475909, 10423501, 11465851, 12612437, 13873681, 15261050, 16787154,
  18465870, 20312458, 22343706, 24578077, 27035886, 29739474, 32713425, 35984770,
  39583245, 43541573, 47895730, 52685306, 57953837, 63749221, 70124148, 77136564,
  84850228, 93335252, 102668779, 112935659, 124229227, 136652151, 150317384, 165349128,
  181884040, 200072456, 220079703, 242087671, 266296456, 292926096, 322218735, 354440623,
  389884688, 428873168, 471760495, 518936559, 570830240, 627913311, 690704607, 759775136,
  835752671, 919327967, 1011260767, 1112386880, 1223623232, 1345985727, 1480584256, 1628642751,
  1791507135, 1970657856, 2167723648, 2384496256, 2622945920, 2885240448, 3173764736, 3491141248,
  3840255616, 4224281216]

/-- Look up one byte of a 256-entry table (Rust array indexing by a `u8`). -/
def tableAt (t : List Nat) (i : Nat) : Nat := t.getD i 0

/-- `pearson::update`: process one byte using Pearson hashing. -/
def pearson_update (state value : Nat) : Nat := tableAt SUBST_TABLE (state ^^^ value)

/-- `pearson::init`: process one byte from the initial state 0. -/
def pearson_init (value : Nat) : Nat := pearson_update 0 value

/-- `pearson::update_double`: process two bytes. -/
def pearson_update_double (state b1 b2 : Nat) : Nat :=
  pearson_update (pearson_update state b1) b2

/-- `pearson::final_256`: on the 256-bucket variant, same as `update`. -/
def pearson_final_256 (state value : Nat) : Nat := pearson_update state value

/-- `pearson::final_48`: final step through `SUBST_TABLE_48`. -/
def pearson_final_48 (state value : Nat) : Nat := tableAt SUBST_TABLE_48 (state ^^^ value)

/-- `pearson::tlsh_b_mapping_256`: TLSH B (bucket) mapping, 256-bucket variant. -/
def tlsh_b_mapping_256 (b0 b1 b2 b3 : Nat) : Nat :=
  pearson_final_256 (pearson_update_double (pearson_init b0) b1 b2) b3

/-- `pearson::tlsh_b_mapping_48`: TLSH B (bucket) mapping, 48-bucket variant. -/
def tlsh_b_mapping_48 (b0 b1 b2 b3 : Nat) : Nat :=
  pearson_final_48 (pearson_update_double (pearson_init b0) b1 b2) b3

/-- 8-bit wrapping subtraction (`u8::wrapping_sub` for values below 256). -/
def wsub8 (a b : Nat) : Nat := (a + 256 - b) % 256

/-- 8-bit wrapping addition (`u8::wrapping_add` for values below 256). -/
def wadd8 (a b : Nat) : Nat := (a + b) % 256

/-- `internals/compare/utils.rs` `distance_on_ring_mod`: distance between `x`
and `y` on the ring of integers modulo `n` (`n = 0` acts as 256). -/
def distance_on_ring_mod (x y n : Nat) : Nat :=
  let dd := if y ≤ x then (wsub8 x y, wsub8 (wadd8 y n) x) else (wsub8 (wadd8 x n) y, wsub8 y x)
  if dd.1 ≤ dd.2 then dd.1 else dd.2

/-- `compare/dist_qratios.rs` `naive::sub_distance`: distance between two
Q-ratio values (each below 16). -/
def qratio_sub_distance (qa qb : Nat) : Nat :=
  let dist := distance_on_ring_mod qa qb 16
  if dist ≤ 1 then dist else (dist - 1) * 12

/-- `compare/dist_qratios.rs` `naive::distance`: distance between two Q-ratio
pair bytes (low nibble paired with low nibble, high with high). -/
def dist_qratios (qratios1 qratios2 : Nat) : Nat :=
  qratio_sub_distance (qratios1 &&& 0x0f) (qratios2 &&& 0x0f) +
    qratio_sub_distance (qratios1 >>> 4) (qratios2 >>> 4)

/-- `internals/compare/dist_length.rs` `naive::distance`: distance between two
encoded length values. -/
def dist_length (lvalue1 lvalue2 : Nat) : Nat :=
  let dist := distance_on_ring_mod lvalue1 lvalue2 0
  if dist ≤ 1 then dist else dist * 12

/-- The modular-ring distance written as in the specification:
minimum of the absolute difference and its complement to `n`. -/
lemma ring_mod_spec (x y n : Nat) (hn : 16 ≤ n) (hn2 : n ≤ 256) (hx : x < n) (hy : y < n) :
    distance_on_ring_mod x y (n % 256) =
      min (max x y - min x y) (n - (max x y - min x y)) := by
  simp only [distance_on_ring_mod, wsub8, wadd8]
  split_ifs <;> omega

/-- C6: the Q-ratio distance splits into the two nibble sub-distances, each
sub-distance follows the ring-of-16 rule with multiplier `(d - 1) * 12`, and
the sub-distance between 0 and 8 is `7 * 12 = 84`. -/
theorem claim_C6_qratio_distance :
    (∀ x y : Nat, x < 256 → y < 256 →
      dist_qratios x y =
        qratio_sub_distance (x % 16) (y % 16) + qratio_sub_distance (x / 16) (y / 16)) ∧
    (∀ a b : Nat, a < 16 → b < 16 →
      qratio_sub_distance a b =
        if min (max a b - min a b) (16 - (max a b - min a b)) ≤ 1
        then min (max a b - min a b) (16 - (max a b - min a b))
        else (min (max a b - min a b) (16 - (max a b - min a b)) - 1) * 12) ∧
    qratio_sub_distance 0 8 = 7 * 12 := by
  refine ⟨fun x y _ _ => ?_, fun a b ha hb => ?_, by decide⟩
  · have h15 : ∀ m : Nat, m &&& 15 = m % 16 := fun m => Nat.and_pow_two_sub_one_eq_mod m 4
    have h4 : ∀ m : Nat, m >>> 4 = m / 16 := fun m => Nat.shiftRight_eq_div_pow m 4
    simp only [dist_qratios, h15, h4]
  · have h := ring_mod_spec a b 16 (by omega) (by omega) ha hb
    simp only [qratio_sub_distance]
    rw [show (16 : Nat) % 256 = 16 by norm_num] at h
    rw [h]

/-- C6 witness: the nibble split and the ring rule at concrete inputs. -/
theorem claim_C6_qratio_distance_witness :
    dist_qratios 0x28 0x93 =
      qratio_sub_distance (0x28 % 16) (0x93 % 16) + qratio_sub_distance (0x93 / 16 - 7) (0x93 / 16) ∧
    qratio_sub_distance 2 9 =
      if min (max 2 9 - min 2 9) (16 - (max 2 9 - min 2 9)) ≤ 1
      then min (max 2 9 - min 2 9) (16 - (max 2 9 - min 2 9))
      else (min (max 2 9 - min 2 9) (16 - (max 2 9 - min 2 9)) - 1) * 12 :=
  ⟨by have := claim_C6_qratio_distance.1 0x28 0x93 (by norm_num) (by norm_num); simpa using this,
   claim_C6_qratio_distance.2.1 2 9 (by norm_num) (by norm_num)⟩

/-- C7: the length distance follows the ring-of-256 rule with multiplier
`d * 12`; the distance between codes 0 and 128 is `128 * 12 = 1536`, and this
is the maximum over all pairs of 8-bit length codes. -/
theorem claim_C7_length_distance :
    (∀ a b : Nat, a < 256 → b < 256 →
      dist_length a b =
        if min (max a b - min a b) (256 - (max a b - min a b)) ≤ 1
        then min (max a b - min a b) (256 - (max a b - min a b))
        else min (max a b - min a b) (256 - (max a b - min a b)) * 12) ∧
    dist_length 0 128 = 128 * 12 ∧
    (∀ a b : Nat, a < 256 → b < 256 → dist_length a b ≤ 128 * 12) := by
  have key : ∀ a b : Nat, a < 256 → b < 256 →
      dist_length a b =
        if min (max a b - min a b) (256 - (max a b - min a b)) ≤ 1
        then min (max a b - min a b) (256 - (max a b - min a b))
        else min (max a b - min a b) (256 - (max a b - min a b)) * 12 := by
    intro a b ha hb
    have h := ring_mod_spec a b 256 (by omega) (by omega) ha hb
    simp only [dist_length]
    rw [show (256 : Nat) % 256 = 0 by norm_num] at h
    rw [h]
  refine ⟨key, by decide, fun a b ha hb => ?_⟩
  rw [key a b ha hb]
  split_ifs <;> omega

/-- C7 witness: the ring rule and the bound at concrete inputs. -/
theorem claim_C7_length_distance_witness :
    dist_length 3 200 =
      (if min (max 3 200 - min 3 200) (256 - (max 3 200 - min 3 200)) ≤ 1
       then min (max 3 200 - min 3 200) (256 - (max 3 200 - min 3 200))
       else min (max 3 200 - min 3 200) (256 - (max 3 200 - min 3 200)) * 12) ∧
    dist_length 3 200 ≤ 128 * 12 :=
  ⟨claim_C7_length_distance.1 3 200 (by norm_num) (by norm_num),
   claim_C7_length_distance.2.2 3 200 (by norm_num) (by norm_num)⟩

/-- The maximum encodable data length (`MAX` in `internals/length.rs`):
the last entry of `TOP_VALUE_BY_ENCODING`. -/
def length_encoding_MAX : Nat := TOP_VALUE_BY_ENCODING.getD (TOP_VALUE_BY_ENCODING.length - 1) 0

/-- The scanning loop of `internals/length.rs` `naive::encode`:
return the index (counting from `i`) of the first entry at least `len`. -/
def lengthEncodeLoop (len : Nat) : List Nat → Nat → Option Nat
  | [], _ => none
  | top :: rest, i => if len ≤ top then some i else lengthEncodeLoop len rest (i + 1)

/-- `internals/length.rs` `naive::encode`: encode a data length as the
8-bit length code (`0` maps to code 0, too-large lengths fail). -/
def naive_length_encode (len : Nat) : Option Nat :=
  if len = 0 then some 0 else lengthEncodeLoop len TOP_VALUE_BY_ENCODING 0

/-- `FuzzyHashLengthEncoding::new` (`internals/length.rs`), in the portable
branch: `binary_search` on a strictly increasing array returns the rank of
`len` (the number of entries strictly below it), both when found and when
not found. -/
def FuzzyHashLengthEncoding_new (len : Nat) : Option Nat :=
  if len = 0 then some 0
  else if length_encoding_MAX < len then none
  else some (TOP_VALUE_BY_ENCODING.countP (fun t => decide (t < len)))

lemma lengthEncodeLoop_none_iff (len : Nat) (l : List Nat) :
    ∀ i : Nat, lengthEncodeLoop len l i = none ↔ ∀ t ∈ l, t < len := by
  induction l with
  | nil => simp [lengthEncodeLoop]
  | cons a rest ih =>
    intro i
    by_cases h : len ≤ a
    · simp [lengthEncodeLoop, h]
    · simp only [lengthEncodeLoop, if_neg h, ih (i + 1), List.mem_cons]
      constructor
      · intro hall t ht
        rcases ht with rfl | ht
        · omega
        · exact hall t ht
      · intro hall t ht
        exact hall t (Or.inr ht)

lemma lengthEncodeLoop_some_iff (len : Nat) (l : List Nat) :
    ∀ i k : Nat, lengthEncodeLoop len l i = some k ↔
      ∃ j : Nat, j < l.length ∧ k = i + j ∧ len ≤ l.getD j 0 ∧
        ∀ j' : Nat, j' < j → l.getD j' 0 < len := by
  induction l with
  | nil => simp [lengthEncodeLoop]
  | cons a rest ih =>
    intro i k
    by_cases h : len ≤ a
    · simp only [lengthEncodeLoop, if_pos h]
      constructor
      · rintro ⟨rfl⟩
        exact ⟨0, by simp, by omega, by simpa using h, by omega⟩
      · rintro ⟨j, hj, rfl, hle, hlt⟩
        rcases Nat.eq_zero_or_pos j with rfl | hpos
        · simp
        · have := hlt 0 hpos
          simp at this
          omega
    · simp only [lengthEncodeLoop, if_neg h, ih (i + 1) k]
      constructor
      · rintro ⟨j, hj, rfl, hle, hlt⟩
        refine ⟨j + 1, by simpa using hj, by omega, by simpa using hle, ?_⟩
        intro j' hj'
        rcases Nat.eq_zero_or_pos j' with rfl | hpos
        · simpa using by omega
        · have := hlt (j' - 1) (by omega)
          simpa [List.getD_cons_succ, Nat.sub_add_cancel hpos] using
            by rw [show j' = (j' - 1) + 1 by omega]; simpa using this
      · rintro ⟨j, hj, rfl, hle, hlt⟩
        rcases Nat.eq_zero_or_pos j with rfl | hpos
        · simp at hle
          omega
        · refine ⟨j - 1, by simp at hj; omega, by omega, ?_, ?_⟩
          · rw [show j = (j - 1) + 1 by omega] at hle
            simpa using hle
          · intro j' hj'
            have := hlt (j' + 1) (by omega)
            simpa using this

lemma top_value_pairwise : List.Pairwise (· < ·) TOP_VALUE_BY_ENCODING := by decide

lemma top_value_length : TOP_VALUE_BY_ENCODING.length = 170 := by decide

lemma top_value_mono {i j : Nat} (hij : i < j) (hj : j < 170) :
    TOP_VALUE_BY_ENCODING.getD i 0 < TOP_VALUE_BY_ENCODING.getD j 0 := by
  have hi' : i < TOP_VALUE_BY_ENCODING.length := by rw [top_value_length]; omega
  have hj' : j < TOP_VALUE_BY_ENCODING.length := by rw [top_value_length]; omega
  rw [List.getD_eq_getElem _ _ hi', List.getD_eq_getElem _ _ hj']
  exact List.pairwise_iff_getElem.mp top_value_pairwise i j hi' hj' hij

lemma top_value_le_last {t : Nat} (ht : t ∈ TOP_VALUE_BY_ENCODING) :
    t ≤ TOP_VALUE_BY_ENCODING.getD 169 0 := by
  rcases List.mem_iff_getElem.mp ht with ⟨i, hi, rfl⟩
  have hi' : i < 170 := by rw [top_value_length] at hi; omega
  rcases Nat.lt_or_ge i 169 with h | h
  · have := top_value_mono h (by omega)
    rw [List.getD_eq_getElem _ _ hi] at this
    omega
  · have : i = 169 := by omega
    subst this
    rw [List.getD_eq_getElem _ _ hi]

lemma countP_of_lengthEncodeLoop (len : Nat) (l : List Nat)
    (hp : List.Pairwise (· < ·) l) :
    ∀ i k : Nat, lengthEncodeLoop len l i = some k →
      l.countP (fun t => decide (t < len)) = k - i := by
  induction l with
  | nil => simp [lengthEncodeLoop]
  | cons a rest ih =>
    intro i k hk
    rcases List.pairwise_cons.mp hp with ⟨ha, hrest⟩
    by_cases h : len ≤ a
    · rw [lengthEncodeLoop, if_pos h] at hk
      cases hk
      rw [List.countP_cons_of_neg _ _ (by simpa using by omega)]
      rw [List.countP_eq_zero.mpr]
      · omega
      · intro t ht
        have := ha t ht
        simpa using by omega
    · rw [lengthEncodeLoop, if_neg h] at hk
      have hik : i + 1 ≤ k := by
        rcases (lengthEncodeLoop_some_iff len rest (i + 1) k).mp hk with ⟨j, _, rfl, _, _⟩
        omega
      rw [List.countP_cons_of_pos _ _ (by simpa using by omega)]
      rw [ih hrest (i + 1) k hk]
      omega

/-- C4: the length encoder is non-decreasing; for every code `k < 170` and
every positive length `n`, `encode n = k` exactly when `n` lies in the window
`(TOP[k-1], TOP[k]]` (with `TOP[-1] = 0`); `n = 0` maps to code 0; encoding
fails exactly when `n` exceeds `TOP[169] = 4224281216`; and the binary-search
encoder `FuzzyHashLengthEncoding::new` agrees with the scanning encoder. -/
theorem claim_C4_length_encoding :
    (∀ m n km kn : Nat, m ≤ n →
      naive_length_encode m = some km → naive_length_encode n = some kn → km ≤ kn) ∧
    (∀ n k : Nat, 1 ≤ n → k < 170 →
      (naive_length_encode n = some k ↔
        (if k = 0 then 0 else TOP_VALUE_BY_ENCODING.getD (k - 1) 0) + 1 ≤ n ∧
          n ≤ TOP_VALUE_BY_ENCODING.getD k 0)) ∧
    naive_length_encode 0 = some 0 ∧
    (∀ n : Nat, naive_length_encode n = none ↔ TOP_VALUE_BY_ENCODING.getD 169 0 < n) ∧
    TOP_VALUE_BY_ENCODING.getD 169 0 = 4224281216 ∧
    (∀ n : Nat, FuzzyHashLengthEncoding_new n = naive_length_encode n) := by
  have hchar : ∀ n k : Nat, 1 ≤ n →
      (naive_length_encode n = some k ↔
        k < 170 ∧ n ≤ TOP_VALUE_BY_ENCODING.getD k 0 ∧
          ∀ j' : Nat, j' < k → TOP_VALUE_BY_ENCODING.getD j' 0 < n) := by
    intro n k hn
    rw [naive_length_encode, if_neg (by omega)]
    rw [lengthEncodeLoop_some_iff]
    constructor
    · rintro ⟨j, hj, rfl, hle, hlt⟩
      rw [top_value_length] at hj
      exact ⟨by omega, by simpa using hle, by simpa using hlt⟩
    · rintro ⟨hk, hle, hlt⟩
      exact ⟨k, by rw [top_value_length]; omega, by omega, hle, hlt⟩
  have hnone : ∀ n : Nat, naive_length_encode n = none ↔
      TOP_VALUE_BY_ENCODING.getD 169 0 < n := by
    intro n
    rcases Nat.eq_zero_or_pos n with rfl | hn
    · simp [naive_length_encode]
    · rw [naive_length_encode, if_neg (by omega), lengthEncodeLoop_none_iff]
      constructor
      · intro h
        have hmem : TOP_VALUE_BY_ENCODING.getD 169 0 ∈ TOP_VALUE_BY_ENCODING := by
          rw [List.getD_eq_getElem _ _ (by rw [top_value_length]; omega)]
          exact List.getElem_mem _
        exact h _ hmem
      · intro h t ht
        have := top_value_le_last ht
        omega
  refine ⟨?_, ?_, by simp [naive_length_encode], hnone, by decide, ?_⟩
  · intro m n km kn hmn hm hn
    rcases Nat.eq_zero_or_pos m with rfl | hm1
    · rw [naive_length_encode] at hm
      simp at hm
      omega
    · have hn1 : 1 ≤ n := by omega
      rcases (hchar m km hm1).mp hm with ⟨hkm, hmle, hmlt⟩
      rcases (hchar n kn hn1).mp hn with ⟨hkn, hnle, _⟩
      by_contra hcon
      have : TOP_VALUE_BY_ENCODING.getD kn 0 < m := hmlt kn (by omega)
      omega
  · intro n k hn hk
    rw [hchar n k hn]
    constructor
    · rintro ⟨_, hle, hlt⟩
      refine ⟨?_, hle⟩
      rcases Nat.eq_zero_or_pos k with rfl | hkpos
      · simp
        omega
      · have := hlt (k - 1) (by omega)
        rw [if_neg (by omega)]
        omega
    · rintro ⟨hge, hle⟩
      refine ⟨hk, hle, ?_⟩
      intro j' hj'
      rcases Nat.eq_zero_or_pos k with rfl | hkpos
      · omega
      · rcases Nat.lt_or_ge j' (k - 1) with h | h
        · have := top_value_mono h (by omega)
          rw [if_neg (by omega)] at hge
          omega
        · have : j' = k - 1 := by omega
          subst this
          rw [if_neg (by omega)] at hge
          omega
  · intro n
    rcases Nat.eq_zero_or_pos n with rfl | hn
    · simp [FuzzyHashLengthEncoding_new, naive_length_encode]
    · have hmaxeq : length_encoding_MAX = TOP_VALUE_BY_ENCODING.getD 169 0 := by decide
      rcases Nat.lt_or_ge (TOP_VALUE_BY_ENCODING.getD 169 0) n with h | h
      · rw [(hnone n).mpr h, FuzzyHashLengthEncoding_new, if_neg (by omega),
          if_pos (by omega)]
      · have hne : naive_length_encode n ≠ none := by
          intro hcon
          rw [hnone n] at hcon
          omega
        rcases Option.ne_none_iff_exists'.mp hne with ⟨k, hkeq⟩
        rw [hkeq, FuzzyHashLengthEncoding_new, if_neg (by omega), if_neg (by omega)]
        have := countP_of_lengthEncodeLoop n TOP_VALUE_BY_ENCODING top_value_pairwise 0 k
          (by rw [naive_length_encode, if_neg (by omega)] at hkeq; exact hkeq)
        rw [this]
        simp

/-- C4 witness: monotonicity and the interval rule at concrete inputs. -/
theorem claim_C4_length_encoding_witness :
    ((5 : Nat) ≤ 100 ∧ naive_length_encode 5 = some 3 ∧
      naive_length_encode 100 = some 11 ∧ (3 : Nat) ≤ 11) ∧
    (naive_length_encode 100 = some 11 ↔
      (if (11 : Nat) = 0 then 0 else TOP_VALUE_BY_ENCODING.getD (11 - 1) 0) + 1 ≤ 100 ∧
        100 ≤ TOP_VALUE_BY_ENCODING.getD 11 0) :=
  ⟨⟨by norm_num, by decide, by decide,
     claim_C4_length_encoding.1 5 100 3 11 (by norm_num) (by decide) (by decide)⟩,
   claim_C4_length_encoding.2.1 100 11 (by norm_num) (by norm_num)⟩

/-- `generate/bucket_aggregation.rs` `naive::get_quartile`: classify one
bucket counter against the three pivots as a dibit. -/
def get_quartile (value q1 q2 q3 : Nat) : Nat :=
  if q3 < value then 3
  else if q2 < value then 2
  else if q1 < value then 1
  else 0

/-- One output byte of `naive::aggregate_*`: fold the four bucket counters of
a chunk in reverse, shifting in one dibit each step. -/
def aggregate_chunk (q1 q2 q3 : Nat) (subbuckets : List Nat) : Nat :=
  subbuckets.reverse.foldl (fun x b => (x <<< 2) ||| get_quartile b q1 q2 q3) 0

/-- `chunks_exact(4)` over a list (any trailing part shorter than 4 dropped). -/
def chunks4 : List Nat → List (List Nat)
  | a :: b :: c :: d :: rest => [a, b, c, d] :: chunks4 rest
  | _ => []

/-- `generate/bucket_aggregation.rs` `naive::aggregate_48/128/256`: the output
bytes are the per-chunk bytes in reverse order (the output iterator is
reversed before being zipped with the bucket chunks). -/
def aggregate_buckets (buckets : List Nat) (q1 q2 q3 : Nat) : List Nat :=
  ((chunks4 buckets).map (aggregate_chunk q1 q2 q3)).reverse

lemma get_quartile_lt_four (value q1 q2 q3 : Nat) : get_quartile value q1 q2 q3 < 4 := by
  unfold get_quartile
  split_ifs <;> omega

lemma shiftLeft_two_or_eq (x q : Nat) (hq : q < 4) : (x <<< 2) ||| q = 4 * x + q := by
  have hx : x <<< 2 = 4 * x := by
    rw [Nat.shiftLeft_eq]
    ring
  have hq' : q < 2 ^ 2 := hq
  have h := Nat.mul_add_lt_is_or hq' x
  rw [hx]
  simpa using h.symm

lemma aggregate_chunk_eq (q1 q2 q3 a b c d : Nat) :
    aggregate_chunk q1 q2 q3 [a, b, c, d] =
      64 * get_quartile d q1 q2 q3 + 16 * get_quartile c q1 q2 q3 +
        4 * get_quartile b q1 q2 q3 + get_quartile a q1 q2 q3 := by
  simp only [aggregate_chunk, List.reverse_cons, List.reverse_nil, List.nil_append,
    List.cons_append, List.foldl_cons, List.foldl_nil]
  rw [shiftLeft_two_or_eq _ _ (get_quartile_lt_four d q1 q2 q3)]
  rw [shiftLeft_two_or_eq _ _ (get_quartile_lt_four c q1 q2 q3)]
  rw [shiftLeft_two_or_eq _ _ (get_quartile_lt_four b q1 q2 q3)]
  rw [shiftLeft_two_or_eq _ _ (get_quartile_lt_four a q1 q2 q3)]
  simp
  ring

lemma aggregate_chunk_extract (q1 q2 q3 a b c d j : Nat) (hj : j < 4) :
    (aggregate_chunk q1 q2 q3 [a, b, c, d]) >>> (2 * j) % 4 =
      get_quartile ([a, b, c, d].getD j 0) q1 q2 q3 := by
  rw [aggregate_chunk_eq]
  have ha := get_quartile_lt_four a q1 q2 q3
  have hb := get_quartile_lt_four b q1 q2 q3
  have hc := get_quartile_lt_four c q1 q2 q3
  have hd := get_quartile_lt_four d q1 q2 q3
  interval_cases j <;>
    simp only [Nat.shiftRight_eq_div_pow, List.getD_cons_zero, List.getD_cons_succ] <;>
    omega

lemma chunks4_length : ∀ l : List Nat, (chunks4 l).length = l.length / 4 := by
  intro l
  induction l using chunks4.induct with
  | case1 a b c d rest ih =>
    simp [chunks4, ih]
    omega
  | case2 l h =>
    match l, h with
    | [], _ => simp [chunks4]
    | [a], _ => simp [chunks4]
    | [a, b], _ => simp [chunks4]
    | [a, b, c], _ => simp [chunks4]
    | a :: b :: c :: d :: rest, h => exact absurd rfl (h a b c d rest)

lemma chunks4_getD : ∀ (l : List Nat) (c : Nat), c < (chunks4 l).length →
    (chunks4 l).getD c [] =
      [l.getD (4 * c) 0, l.getD (4 * c + 1) 0, l.getD (4 * c + 2) 0, l.getD (4 * c + 3) 0] := by
  intro l
  induction l using chunks4.induct with
  | case1 a b c d rest ih =>
    intro cc hcc
    rcases Nat.eq_zero_or_pos cc with rfl | hpos
    · simp [chunks4]
    · obtain ⟨c', rfl⟩ : ∃ c', cc = c' + 1 := ⟨cc - 1, by omega⟩
      rw [chunks4] at hcc ⊢
      simp only [List.length_cons] at hcc
      have := ih c' (by omega)
      simp only [List.getD_cons_succ]
      rw [this]
      have h1 : 4 * (c' + 1) = 4 * c' + 1 + 1 + 1 + 1 := by ring
      have h2 : 4 * (c' + 1) + 1 = 4 * c' + 1 + 1 + 1 + 1 + 1 := by ring
      have h3 : 4 * (c' + 1) + 2 = 4 * c' + 2 + 1 + 1 + 1 + 1 := by ring
      have h4 : 4 * (c' + 1) + 3 = 4 * c' + 3 + 1 + 1 + 1 + 1 := by ring
      simp [h1, h2, h3, h4, List.getD_cons_succ]
  | case2 t h =>
    intro cc hcc
    match t, h with
    | [], _ => simp [chunks4] at hcc
    | [a], _ => simp [chunks4] at hcc
    | [a, b], _ => simp [chunks4] at hcc
    | [a, b, c], _ => simp [chunks4] at hcc
    | a :: b :: c :: d :: rest, h => exact absurd rfl (h a b c d rest)

lemma getD_reverse_list (l : List Nat) (j : Nat) (hj : j < l.length) :
    l.reverse.getD j 0 = l.getD (l.length - 1 - j) 0 := by
  rw [List.getD_eq_getElem?_getD, List.getD_eq_getElem?_getD, List.getElem?_reverse hj]

/-- C8: for each of the three bucket counts, the aggregate body has `B / 4`
bytes, and for every bucket index `i` the dibit at bit positions
`2 * (i % 4)` and `2 * (i % 4) + 1` of byte `B / 4 - 1 - i / 4` is the strict
ternary classification of the bucket counter against the pivots. -/
theorem claim_C8_bucket_aggregation (B : Nat) (hB : B = 48 ∨ B = 128 ∨ B = 256)
    (buckets : List Nat) (hlen : buckets.length = B) (q1 q2 q3 : Nat)
    (h12 : q1 ≤ q2) (h23 : q2 ≤ q3) (i : Nat) (hi : i < B) :
    (aggregate_buckets buckets q1 q2 q3).length = B / 4 ∧
    ((aggregate_buckets buckets q1 q2 q3).getD (B / 4 - 1 - i / 4) 0) >>> (2 * (i % 4)) &&& 3 =
      (if q3 < buckets.getD i 0 then 3
       else if q2 < buckets.getD i 0 then 2
       else if q1 < buckets.getD i 0 then 1
       else 0) := by
  have hlen4 : (chunks4 buckets).length = B / 4 := by
    rw [chunks4_length, hlen]
  have hrevlen : ((chunks4 buckets).map (aggregate_chunk q1 q2 q3)).length = B / 4 := by
    simp [hlen4]
  have hbodylen : (aggregate_buckets buckets q1 q2 q3).length = B / 4 := by
    simp [aggregate_buckets, hlen4]
  refine ⟨hbodylen, ?_⟩
  have hdvd : i / 4 < B / 4 := by
    rcases hB with rfl | rfl | rfl <;> omega
  unfold aggregate_buckets
  rw [getD_reverse_list _ _ (by rw [hrevlen]; omega)]
  rw [hrevlen]
  have hidx : B / 4 - 1 - (B / 4 - 1 - i / 4) = i / 4 := by omega
  rw [hidx]
  rw [List.getD_eq_getElem _ _ (by rw [hrevlen]; omega)]
  rw [List.getElem_map]
  have hchunk := chunks4_getD buckets (i / 4) (by rw [hlen4]; omega)
  rw [List.getD_eq_getElem _ _ (by rw [hlen4]; omega)] at hchunk
  rw [hchunk]
  have hmod3 : ∀ m : Nat, m &&& 3 = m % 4 := fun m => Nat.and_pow_two_sub_one_eq_mod m 2
  rw [hmod3]
  rw [aggregate_chunk_extract _ _ _ _ _ _ _ _ (Nat.mod_lt i (by norm_num))]
  have helem : [buckets.getD (4 * (i / 4)) 0, buckets.getD (4 * (i / 4) + 1) 0,
      buckets.getD (4 * (i / 4) + 2) 0, buckets.getD (4 * (i / 4) + 3) 0].getD (i % 4) 0 =
      buckets.getD i 0 := by
    have h4 : i % 4 < 4 := Nat.mod_lt i (by norm_num)
    have hieq : 4 * (i / 4) + i % 4 = i := by omega
    interval_cases h : i % 4 <;>
      simp only [List.getD_cons_zero, List.getD_cons_succ] <;>
      congr 1 <;> omega
  rw [helem]
  rfl

/-- C8 witness: the aggregation packing at a concrete bucket array. -/
theorem claim_C8_bucket_aggregation_witness :
    (aggregate_buckets (List.range 48) 10 20 30).length = 48 / 4 ∧
    ((aggregate_buckets (List.range 48) 10 20 30).getD (48 / 4 - 1 - 5 / 4) 0) >>>
        (2 * (5 % 4)) &&& 3 =
      (if 30 < (List.range 48).getD 5 0 then 3
       else if 20 < (List.range 48).getD 5 0 then 2
       else if 10 < (List.range 48).getD 5 0 then 1
       else 0) :=
  claim_C8_bucket_aggregation 48 (Or.inl rfl) (List.range 48) (by simp) 10 20 30
    (by norm_num) (by norm_num) 5 (by norm_num)

/-- Parameters of a TLSH variant: the effective bucket count and the
checksum byte count (`SIZE_BUCKETS` and `SIZE_CKSUM` in the source). -/
structure VariantParams where
  sizeBuckets : Nat
  sizeCksum : Nat
deriving DecidableEq

/-- `FuzzyHashBucketsInfo::b_mapping`: the 48-bucket variant uses
`tlsh_b_mapping_48`, the 128- and 256-bucket variants `tlsh_b_mapping_256`. -/
def b_mapping (v : VariantParams) (b0 b1 b2 b3 : Nat) : Nat :=
  if v.sizeBuckets = 48 then tlsh_b_mapping_48 b0 b1 b2 b3 else tlsh_b_mapping_256 b0 b1 b2 b3

/-- `FuzzyHashBucketMapper::MIN_NONZERO_BUCKETS`: 18 for the 48-bucket
variant, `SIZE_BUCKETS / 2 + 1` for the 128- and 256-bucket variants. -/
def MIN_NONZERO_BUCKETS (v : VariantParams) : Nat :=
  if v.sizeBuckets = 48 then 18 else v.sizeBuckets / 2 + 1

/-- `hash/checksum.rs` `InnerChecksum::update`: the 1-byte checksum maps its
single byte through the variant B mapping with constant 0; the 3-byte
checksum chains the remaining bytes through the 256-bucket mapping. -/
def checksum_update (v : VariantParams) (cks : List Nat) (curr prev : Nat) : List Nat :=
  if v.sizeCksum = 1 then
    [b_mapping v 0 curr prev (cks.getD 0 0)]
  else
    let d0 := b_mapping v 0 curr prev (cks.getD 0 0)
    let d1 := tlsh_b_mapping_256 d0 curr prev (cks.getD 1 0)
    let d2 := tlsh_b_mapping_256 d1 curr prev (cks.getD 2 0)
    [d0, d1, d2]

/-- The state of `generate.rs` `Generator`: a 256-entry bucket array (the
default, memory-relaxed configuration), the length counted after the tail
was filled, the checksum bytes, and the 4-byte tail with its fill level. -/
structure GenState where
  buckets : List Nat
  len : Nat
  checksum : List Nat
  tail : List Nat
  tail_len : Nat
deriving DecidableEq

/-- `Generator::default`: all counters, checksum bytes and the tail zero. -/
def GenState.fresh (v : VariantParams) : GenState :=
  { buckets := List.replicate 256 0
    len := 0
    checksum := List.replicate v.sizeCksum 0
    tail := List.replicate 4 0
    tail_len := 0 }

/-- `MAX_LEN` of `generate.rs`: `u32::MAX - (TAIL_SIZE - 1) = 2^32 - 4`. -/
def GEN_MAX_LEN : Nat := 2 ^ 32 - 4

/-- `FuzzyHashBucketsData::increment` (default configuration: a 256-entry
array indexed by the full `u8`, `u32` wrapping increment). -/
def buckets_increment (bks : List Nat) (index : Nat) : List Nat :=
  bks.set index ((bks.getD index 0 + 1) % 2 ^ 32)

/-- The window loop body of `Generator::update`: per consumed byte, update
the checksum, increment the six salted buckets, then shift the window. -/
def window_loop (v : VariantParams) :
    Nat → Nat → Nat → Nat → List Nat → List Nat → List Nat →
      List Nat × List Nat × (Nat × Nat × Nat × Nat)
  | b0, b1, b2, b3, cks, bks, [] => (cks, bks, (b0, b1, b2, b3))
  | b0, b1, b2, b3, cks, bks, b4 :: rest =>
    let cks' := checksum_update v cks b4 b3
    let bks1 := buckets_increment bks (b_mapping v 0x2 b4 b3 b2)
    let bks2 := buckets_increment bks1 (b_mapping v 0x3 b4 b3 b1)
    let bks3 := buckets_increment bks2 (b_mapping v 0x5 b4 b2 b1)
    let bks4 := buckets_increment bks3 (b_mapping v 0x7 b4 b2 b0)
    let bks5 := buckets_increment bks4 (b_mapping v 0xb b4 b3 b0)
    let bks6 := buckets_increment bks5 (b_mapping v 0xd b4 b1 b0)
    window_loop v b1 b2 b3 b4 cks' bks6 rest

/-- The part of `Generator::update` that runs once the tail is full: drop
everything beyond the first `2^32 - 4` counted bytes, run the window loop,
then overwrite the tail with the last four processed bytes. -/
def gen_update_filled (v : VariantParams) (g : GenState) (data0 : List Nat) : GenState :=
  if GEN_MAX_LEN ≤ g.len then g
  else
    let cap := GEN_MAX_LEN - g.len
    let data := if cap < data0.length then data0.take cap else data0
    let r := window_loop v (g.tail.getD 0 0) (g.tail.getD 1 0) (g.tail.getD 2 0)
      (g.tail.getD 3 0) g.checksum g.buckets data
    let tail' :=
      if 4 ≤ data.length then data.drop (data.length - 4)
      else (g.tail.drop data.length) ++ data
    { buckets := r.2.1
      len := g.len + data.length
      checksum := r.1
      tail := tail'
      tail_len := g.tail_len }

/-- `Generator::update`: first fill the 4-byte tail, then process the rest
through the window loop. -/
def gen_update (v : VariantParams) (g : GenState) (data0 : List Nat) : GenState :=
  if g.tail_len < 4 then
    let remaining := 4 - g.tail_len
    if data0.length ≤ remaining then
      { g with
        tail := (g.tail.take g.tail_len) ++ data0 ++ (g.tail.drop (g.tail_len + data0.length))
        tail_len := g.tail_len + data0.length }
    else
      gen_update_filled v
        { g with
          tail := (g.tail.take g.tail_len) ++ data0.take remaining
          tail_len := g.tail_len + remaining }
        (data0.drop remaining)
  else gen_update_filled v g data0

/-- `Generator::processed_len`: `len.checked_add(tail_len)`. -/
def processed_len (g : GenState) : Option Nat :=
  if g.len + g.tail_len < 2 ^ 32 then some (g.len + g.tail_len) else none

/-- `length.rs` minimum data length on all modes (`MIN`). -/
def LENGTH_MIN (v : VariantParams) : Nat := if v.sizeBuckets = 48 then 10 else 50

/-- `length.rs` minimum data length on the conservative mode
(`MIN_CONSERVATIVE`). -/
def LENGTH_MIN_CONSERVATIVE (v : VariantParams) : Nat :=
  if v.sizeBuckets = 48 then 10 else 128

/-- `length.rs` `DataLengthValidity`. -/
inductive DataLengthValidity where
  | TooSmall
  | ValidWhenOptimistic
  | Valid
  | TooLarge
deriving DecidableEq

/-- `DataLengthValidity::new`. -/
def data_length_validity (v : VariantParams) (len : Nat) : DataLengthValidity :=
  if len < LENGTH_MIN v then .TooSmall
  else if len < LENGTH_MIN_CONSERVATIVE v then .ValidWhenOptimistic
  else if len ≤ length_encoding_MAX then .Valid
  else .TooLarge

/-- `DataLengthValidity::is_err_on` (`conservative = true` means the
conservative processing mode). -/
def validity_is_err_on (val : DataLengthValidity) (conservative : Bool) : Bool :=
  match val with
  | .TooLarge => true
  | .TooSmall => true
  | .Valid => false
  | .ValidWhenOptimistic => conservative

/-- `errors.rs` `GeneratorError`. -/
inductive GeneratorError where
  | TooSmallInput
  | TooLargeInput
  | BucketsAreHalfEmpty
  | BucketsAreThreeQuarterEmpty
deriving DecidableEq

/-- `errors.rs` `GeneratorErrorCategory`. -/
inductive GeneratorErrorCategory where
  | DataLength
  | DataDistribution
deriving DecidableEq

/-- `GeneratorError::category`. -/
def GeneratorError.category : GeneratorError → GeneratorErrorCategory
  | .TooSmallInput => .DataLength
  | .TooLargeInput => .DataLength
  | .BucketsAreHalfEmpty => .DataDistribution
  | .BucketsAreThreeQuarterEmpty => .DataDistribution

/-- `generate.rs` `GeneratorOptions` (the length mode, the one compatible
flag and the three incompatible flags, unpacked from their bitflags). -/
structure GeneratorOptions where
  length_mode_conservative : Bool
  pure_integer_qratio_computation : Bool
  allow_small_size_files : Bool
  allow_weak_buckets_half : Bool
  allow_weak_buckets_quarter : Bool
deriving DecidableEq

/-- `GeneratorOptions::new` (the default: optimistic mode, no flags). -/
def GeneratorOptions.default : GeneratorOptions :=
  { length_mode_conservative := false
    pure_integer_qratio_computation := false
    allow_small_size_files := false
    allow_weak_buckets_half := false
    allow_weak_buckets_quarter := false }

/-- Modelled from the spec: `FuzzyHashQRatios::new` of `hash/qratios.rs`
(that file is absent from `src/`; its tests `hash/qratios/tests.rs` pin the
packing): the pair is one byte with the Q1 ratio in the low nibble and the
Q2 ratio in the high nibble. -/
def FuzzyHashQRatios_new (q1r q2r : Nat) : Nat := (q2r <<< 4) ||| q1r

/-- A fuzzy-hash digest (`hash.rs` `FuzzyHash`): checksum bytes, encoded
length, Q-ratio pair byte and body bytes. -/
structure FuzzyHashDigest where
  checksum : List Nat
  lvalue : Nat
  qratios : Nat
  body : List Nat
deriving DecidableEq

/-- The tail of `Generator::finalize_with_options` after the quartile
computation: the half-empty check, the Q-ratio computation (the legacy `f32`
branch is abstracted as the function argument `legacyQR`), the aggregation
and the digest assembly. -/
def gen_finalize_tail (v : VariantParams) (g : GenState) (opts : GeneratorOptions)
    (legacyQR : Nat → Nat → Nat) (lvalue : Nat) (buckets : List Nat) (nonzero : Nat)
    (q1 q2 q3 : Nat) : Except GeneratorError FuzzyHashDigest :=
  if nonzero < MIN_NONZERO_BUCKETS v ∧
      ¬(opts.allow_weak_buckets_half = true ∨ opts.allow_weak_buckets_quarter = true) then
    .error .BucketsAreHalfEmpty
  else
    let qpair :=
      if opts.pure_integer_qratio_computation then
        ((q1 * 100 / q3) % 16, (q2 * 100 / q3) % 16)
      else
        (legacyQR q1 q3, legacyQR q2 q3)
    let body := aggregate_buckets buckets q1 q2 q3
    .ok { checksum := g.checksum
          lvalue := lvalue
          qratios := FuzzyHashQRatios_new qpair.1 qpair.2
          body := body }

/-- The core of `Generator::finalize_with_options` after the length
validation: length encoding, quartile selection (`select_nth_unstable`
returns the order statistic, modelled through a full sort), the
three-quarter-empty check, then the tail above. -/
def gen_finalize_core (v : VariantParams) (g : GenState) (opts : GeneratorOptions)
    (legacyQR : Nat → Nat → Nat) (len : Nat) : Except GeneratorError FuzzyHashDigest :=
  let lvalue := (FuzzyHashLengthEncoding_new len).getD 0
  let buckets := g.buckets.take v.sizeBuckets
  let nonzero := buckets.countP (fun x => x != 0)
  let sorted := List.insertionSort (· ≤ ·) buckets
  let q2 := sorted.getD (v.sizeBuckets / 2 - 1) 0
  let q1 := sorted.getD (v.sizeBuckets / 4 - 1) 0
  let q3 := sorted.getD (v.sizeBuckets / 2 + v.sizeBuckets / 4 - 1) 0
  if q3 = 0 then
    if opts.allow_weak_buckets_quarter = false then
      .error .BucketsAreThreeQuarterEmpty
    else
      gen_finalize_tail v g opts legacyQR lvalue buckets nonzero 1 1 1
  else
    gen_finalize_tail v g opts legacyQR lvalue buckets nonzero q1 q2 q3

/-- `Generator::finalize_with_options`: validate the data length, then run
the distribution checks and assemble the digest. -/
def gen_finalize (v : VariantParams) (g : GenState) (opts : GeneratorOptions)
    (legacyQR : Nat → Nat → Nat) : Except GeneratorError FuzzyHashDigest :=
  let len := (processed_len g).getD (2 ^ 32 - 1)
  let validity := data_length_validity v len
  if validity_is_err_on validity opts.length_mode_conservative then
    match validity with
    | .TooLarge => .error .TooLargeInput
    | _ =>
      if opts.allow_small_size_files = false then .error .TooSmallInput
      else gen_finalize_core v g opts legacyQR len
  else gen_finalize_core v g opts legacyQR len

/-- C2 counterexample: a length-valid 128-bucket generator state whose
buckets are all zero has fewer than 65 non-zero buckets, yet finalizing with
the default options (no weak-bucket flags) fails with
`BucketsAreThreeQuarterEmpty`, not `BucketsAreHalfEmpty`: the quartile
computation and the three-quarter-empty check run before the non-zero-bucket
count check. -/
theorem claim_C2_counterexample :
    (((GenState.mk (List.replicate 256 0) 128 [0] (List.replicate 4 0)
        4).buckets.take 128).countP (fun x => x != 0) < MIN_NONZERO_BUCKETS ⟨128, 1⟩) ∧
    gen_finalize ⟨128, 1⟩
      (GenState.mk (List.replicate 256 0) 128 [0] (List.replicate 4 0) 4)
      GeneratorOptions.default (fun a b => a * 100 / b % 16) =
      .error .BucketsAreThreeQuarterEmpty ∧
    gen_finalize ⟨128, 1⟩
      (GenState.mk (List.replicate 256 0) 128 [0] (List.replicate 4 0) 4)
      GeneratorOptions.default (fun a b => a * 100 / b % 16) ≠
      .error .BucketsAreHalfEmpty := by
  refine ⟨by decide, by rfl, ?_⟩
  intro hcon
  have : GeneratorError.BucketsAreThreeQuarterEmpty = GeneratorError.BucketsAreHalfEmpty := by
    have h1 :
        gen_finalize ⟨128, 1⟩
          (GenState.mk (List.replicate 256 0) 128 [0] (List.replicate 4 0) 4)
          GeneratorOptions.default (fun a b => a * 100 / b % 16) =
          .error .BucketsAreThreeQuarterEmpty := by rfl
    rw [h1] at hcon
    exact Except.error.inj hcon
  exact absurd this (by decide)

/-- C2 (amended): the quartile computation and its three-quarter-empty check
run before the non-zero-bucket count check.  In a length-valid state with
fewer non-zero buckets than the variant minimum (18 for 48 buckets, 65 for
128, 129 for 256) and no weak-bucket flags set, finalization fails with
`BucketsAreThreeQuarterEmpty` when the third-quartile value is zero and with
`BucketsAreHalfEmpty` otherwise. -/
theorem claim_C2_distribution_check_order :
    (MIN_NONZERO_BUCKETS ⟨48, 1⟩ = 18 ∧ MIN_NONZERO_BUCKETS ⟨128, 1⟩ = 65 ∧
      MIN_NONZERO_BUCKETS ⟨256, 1⟩ = 129) ∧
    ∀ (v : VariantParams) (g : GenState) (opts : GeneratorOptions)
      (legacyQR : Nat → Nat → Nat),
      validity_is_err_on
        (data_length_validity v ((processed_len g).getD (2 ^ 32 - 1)))
        opts.length_mode_conservative = false →
      opts.allow_weak_buckets_half = false →
      opts.allow_weak_buckets_quarter = false →
      (g.buckets.take v.sizeBuckets).countP (fun x => x != 0) < MIN_NONZERO_BUCKETS v →
      gen_finalize v g opts legacyQR =
        (if (List.insertionSort (· ≤ ·) (g.buckets.take v.sizeBuckets)).getD
            (v.sizeBuckets / 2 + v.sizeBuckets / 4 - 1) 0 = 0
         then .error .BucketsAreThreeQuarterEmpty
         else .error .BucketsAreHalfEmpty) := by
  refine ⟨⟨by decide, by decide, by decide⟩, ?_⟩
  intro v g opts legacyQR hlen hhalf hquarter hcount
  unfold gen_finalize
  simp only [hlen, Bool.false_eq_true, if_false]
  simp only [gen_finalize_core]
  rw [hquarter]
  simp only [eq_self_iff_true, if_true]
  split_ifs with hq3
  · rfl
  · simp only [gen_finalize_tail]
    rw [if_pos]
    refine ⟨hcount, ?_⟩
    rw [hhalf, hquarter]
    simp

/-- C2 witness: a concrete length-valid 128-bucket state with 40 non-zero
buckets (below the minimum 65) whose third quartile is non-zero. -/
theorem claim_C2_distribution_check_order_witness :
    gen_finalize ⟨128, 1⟩
      (GenState.mk (List.replicate 40 1 ++ List.replicate 216 0) 128 [0]
        (List.replicate 4 0) 4)
      GeneratorOptions.default (fun a b => a * 100 / b % 16) =
      (if (List.insertionSort (· ≤ ·)
            ((GenState.mk (List.replicate 40 1 ++ List.replicate 216 0) 128 [0]
              (List.replicate 4 0) 4).buckets.take
              (VariantParams.mk 128 1).sizeBuckets)).getD
          ((VariantParams.mk 128 1).sizeBuckets / 2 +
            (VariantParams.mk 128 1).sizeBuckets / 4 - 1) 0 = 0
       then .error .BucketsAreThreeQuarterEmpty
       else .error .BucketsAreHalfEmpty) :=
  claim_C2_distribution_check_order.2 ⟨128, 1⟩
    (GenState.mk (List.replicate 40 1 ++ List.replicate 216 0) 128 [0]
      (List.replicate 4 0) 4)
    GeneratorOptions.default (fun a b => a * 100 / b % 16)
    (by decide) (by decide) (by decide) (by decide)

/-- `hash/checksum.rs` `OneByteChecksumChecker::is_valid` for the 48-bucket
variant: the checksum byte must be at most `NUM_BUCKETS_SHORT = 48`. -/
def one_byte_checksum_is_valid_48 (checksum : Nat) : Bool := checksum ≤ 48

/-- The states reachable by a generator of variant `v`: the fresh state and
anything obtained from a reachable state by an `update` call. -/
inductive GenReachable (v : VariantParams) : GenState → Prop where
  | fresh : GenReachable v (GenState.fresh v)
  | step (g : GenState) (data : List Nat) :
      GenReachable v g → GenReachable v (gen_update v g data)

lemma subst48_le (i : Nat) : tableAt SUBST_TABLE_48 i ≤ 48 := by
  rcases Nat.lt_or_ge i 256 with h | h
  · have hall : ∀ j, j < 256 → tableAt SUBST_TABLE_48 j ≤ 48 := by decide
    exact hall i h
  · rw [tableAt, List.getD_eq_default]
    · omega
    · have : SUBST_TABLE_48.length = 256 := by decide
      omega

lemma checksum_update_48_le (cks : List Nat) (curr prev : Nat) :
    (checksum_update ⟨48, 1⟩ cks curr prev).getD 0 0 ≤ 48 := by
  simp only [checksum_update, b_mapping, if_pos rfl, tlsh_b_mapping_48, pearson_final_48]
  exact subst48_le _

lemma window_loop_checksum_48 (data : List Nat) :
    ∀ (b0 b1 b2 b3 : Nat) (cks bks : List Nat),
      (window_loop ⟨48, 1⟩ b0 b1 b2 b3 cks bks data).1 = cks ∨
        (window_loop ⟨48, 1⟩ b0 b1 b2 b3 cks bks data).1.getD 0 0 ≤ 48 := by
  induction data with
  | nil =>
    intro b0 b1 b2 b3 cks bks
    left
    rfl
  | cons b4 rest ih =>
    intro b0 b1 b2 b3 cks bks
    rw [window_loop]
    rcases ih b1 b2 b3 b4 (checksum_update ⟨48, 1⟩ cks b4 b3) _ with h | h
    · right
      rw [h]
      exact checksum_update_48_le cks b4 b3
    · right
      exact h

lemma gen_update_filled_checksum_48 (g : GenState) (data : List Nat)
    (h : g.checksum.getD 0 0 ≤ 48) :
    (gen_update_filled ⟨48, 1⟩ g data).checksum.getD 0 0 ≤ 48 := by
  unfold gen_update_filled
  split_ifs with h1
  · exact h
  · dsimp only
    rcases window_loop_checksum_48
      (if GEN_MAX_LEN - g.len < data.length then data.take (GEN_MAX_LEN - g.len) else data)
      (g.tail.getD 0 0) (g.tail.getD 1 0) (g.tail.getD 2 0) (g.tail.getD 3 0)
      g.checksum g.buckets with hc | hc
    · rw [hc]
      exact h
    · exact hc

lemma gen_update_checksum_48 (g : GenState) (data : List Nat)
    (h : g.checksum.getD 0 0 ≤ 48) :
    (gen_update ⟨48, 1⟩ g data).checksum.getD 0 0 ≤ 48 := by
  unfold gen_update
  split_ifs with h1
  · dsimp only
    split_ifs with h2
    · exact h
    · exact gen_update_filled_checksum_48 _ _ h
  · exact gen_update_filled_checksum_48 _ _ h

lemma finalize_tail_ok_checksum (v : VariantParams) (g : GenState) (opts : GeneratorOptions)
    (legacyQR : Nat → Nat → Nat) (d : FuzzyHashDigest)
    (lvalue : Nat) (buckets : List Nat) (nonzero q1 q2 q3 : Nat)
    (ht : gen_finalize_tail v g opts legacyQR lvalue buckets nonzero q1 q2 q3 = .ok d) :
    d.checksum = g.checksum := by
  unfold gen_finalize_tail at ht
  split at ht
  · cases ht
  · dsimp only at ht
    cases ht
    rfl

lemma finalize_core_ok_checksum (v : VariantParams) (g : GenState) (opts : GeneratorOptions)
    (legacyQR : Nat → Nat → Nat) (d : FuzzyHashDigest) (len : Nat)
    (hc : gen_finalize_core v g opts legacyQR len = .ok d) : d.checksum = g.checksum := by
  unfold gen_finalize_core at hc
  dsimp only at hc
  split at hc
  · split at hc
    · cases hc
    · exact finalize_tail_ok_checksum v g opts legacyQR d _ _ _ _ _ _ hc
  · exact finalize_tail_ok_checksum v g opts legacyQR d _ _ _ _ _ _ hc

lemma finalize_ok_checksum (v : VariantParams) (g : GenState) (opts : GeneratorOptions)
    (legacyQR : Nat → Nat → Nat) (d : FuzzyHashDigest)
    (h : gen_finalize v g opts legacyQR = .ok d) : d.checksum = g.checksum := by
  unfold gen_finalize at h
  dsimp only at h
  split at h
  · split at h
    · cases h
    · split at h
      · cases h
      · exact finalize_core_ok_checksum v g opts legacyQR d _ h
  · exact finalize_core_ok_checksum v g opts legacyQR d _ h

/-- C10: every entry of `SUBST_TABLE_48` is at most 48; every reachable
state of the 48-bucket generator has its single checksum byte at most 48;
hence every digest this generator produces passes the strict-parser
one-byte checksum validity check. -/
theorem claim_C10_checksum_invariant :
    (∀ x ∈ SUBST_TABLE_48, x ≤ 48) ∧
    (∀ g : GenState, GenReachable ⟨48, 1⟩ g → g.checksum.getD 0 0 ≤ 48) ∧
    (∀ (g : GenState) (opts : GeneratorOptions) (legacyQR : Nat → Nat → Nat)
        (d : FuzzyHashDigest),
      GenReachable ⟨48, 1⟩ g → gen_finalize ⟨48, 1⟩ g opts legacyQR = .ok d →
        one_byte_checksum_is_valid_48 (d.checksum.getD 0 0) = true) := by
  have hreach : ∀ g : GenState, GenReachable ⟨48, 1⟩ g → g.checksum.getD 0 0 ≤ 48 := by
    intro g hg
    induction hg with
    | fresh => decide
    | step g data _ ih => exact gen_update_checksum_48 g data ih
  refine ⟨by decide, hreach, ?_⟩
  intro g opts legacyQR d hg hfin
  have hck := finalize_ok_checksum _ _ _ _ _ hfin
  simp only [one_byte_checksum_is_valid_48, hck, decide_eq_true_eq]
  exact hreach g hg

/-- C10 witness: feeding the 50 bytes `0, 1, ..., 49` to a fresh 48-bucket
generator produces a digest whose checksum byte (18) passes the check. -/
theorem claim_C10_checksum_invariant_witness :
    one_byte_checksum_is_valid_48
      ((FuzzyHashDigest.mk [18] 9 122
        [196, 71, 16, 8, 221, 87, 229, 184, 218, 101, 91, 24]).checksum.getD 0 0) = true :=
  claim_C10_checksum_invariant.2.2
    (gen_update ⟨48, 1⟩ (GenState.fresh ⟨48, 1⟩) (List.range 50))
    GeneratorOptions.default (fun a b => a * 100 / b % 16)
    (FuzzyHashDigest.mk [18] 9 122 [196, 71, 16, 8, 221, 87, 229, 184, 218, 101, 91, 24])
    (GenReachable.step _ _ GenReachable.fresh) (by rfl)

/-- `errors.rs` `ParseError`. -/
inductive ParseError where
  | LengthIsTooLarge
  | InvalidPrefixTag
  | InvalidCharacter
  | InvalidStringLength
  | InvalidChecksum
deriving DecidableEq

/-- `internals/parse/hex_str.rs` `decode_digit`: one hexadecimal digit to
its value, `0xff` when invalid (the table-based variants agree with this
match-based one entry for entry). -/
def decode_digit (digit : Nat) : Nat :=
  if 0x30 ≤ digit ∧ digit ≤ 0x39 then digit - 0x30
  else if 0x41 ≤ digit ∧ digit ≤ 0x46 then digit - 0x41 + 10
  else if 0x61 ≤ digit ∧ digit ≤ 0x66 then digit - 0x61 + 10
  else 0xff

/-- `hex_str.rs` `decode_1`: two hex digits, normal nibble order. -/
def decode_1 (c0 c1 : Nat) : Option Nat :=
  let value_hi := decode_digit c0
  let value_lo := decode_digit c1
  if value_lo = 0xff ∨ value_hi = 0xff then none else some (value_hi <<< 4 ||| value_lo)

/-- `hex_str.rs` `decode_rev_1` (without its length-2 guard, which the
callers below re-check): two hex digits, swapped nibble order. -/
def decode_rev_1 (c0 c1 : Nat) : Option Nat :=
  let value_lo := decode_digit c0
  let value_hi := decode_digit c1
  if value_lo = 0xff ∨ value_hi = 0xff then none else some (value_hi <<< 4 ||| value_lo)

/-- The per-pair loop of `decode_array` / `decode_rev_array`. -/
def decode_list (f2 : Nat → Nat → Option Nat) : List Nat → Option (List Nat)
  | [] => some []
  | c0 :: c1 :: rest =>
    match f2 c0 c1, decode_list f2 rest with
    | some v, some vs => some (v :: vs)
    | _, _ => none
  | _ => none

/-- `hex_str.rs` `HEX_UPPER_NIBBLE_TABLE` (ASCII codes of `0-9A-F`). -/
def HEX_UPPER_NIBBLE_TABLE : List Nat :=
  [0x30, 0x31, 0x32, 0x33, 0x34, 0x35, 0x36, 0x37, 0x38, 0x39,
   0x41, 0x42, 0x43, 0x44, 0x45, 0x46]

/-- One nibble to its uppercase hex ASCII code. -/
def hexDigit (n : Nat) : Nat := HEX_UPPER_NIBBLE_TABLE.getD n 0

/-- `hex_str.rs` `encode_array`, one byte: natural nibble order. -/
def encode_1 (value : Nat) : List Nat := [hexDigit (value >>> 4), hexDigit (value &&& 0x0f)]

/-- `hex_str.rs` `encode_rev_1`: swapped nibble order. -/
def encode_rev_1 (value : Nat) : List Nat := [hexDigit (value &&& 0x0f), hexDigit (value >>> 4)]

/-- `hex_str.rs` `encode_array` over a byte list. -/
def encode_array (src : List Nat) : List Nat := src.flatMap encode_1

/-- `hex_str.rs` `encode_rev_array` over a byte list. -/
def encode_rev_array (src : List Nat) : List Nat := src.flatMap encode_rev_1

/-- `hash.rs` `SIZE_IN_BYTES`: checksum, length, Q-ratio pair, body. -/
def SIZE_IN_BYTES (v : VariantParams) : Nat := v.sizeCksum + 2 + v.sizeBuckets / 4

/-- `hash.rs` `LEN_IN_STR_EXCEPT_PREFIX`: two hex digits per byte. -/
def LEN_IN_STR_EXCEPT_PREFIX (v : VariantParams) : Nat := SIZE_IN_BYTES v * 2

/-- `hash.rs` `LEN_IN_STR`: two more characters for the `T1` version tag. -/
def LEN_IN_STR (v : VariantParams) : Nat := LEN_IN_STR_EXCEPT_PREFIX v + 2

/-- `hash/checksum.rs` `OneByteChecksumChecker` dispatch inside
`FuzzyHashChecksum::is_valid`: only the 1-byte checksum of the 48-bucket
variant is constrained (to at most 48); everything else is valid. -/
def checksum_is_valid (v : VariantParams) (cks : List Nat) : Bool :=
  if v.sizeCksum = 1 ∧ v.sizeBuckets = 48 then cks.getD 0 0 ≤ 48 else true

/-- `FuzzyHashLengthEncoding::is_valid`: the code is below 170. -/
def lvalue_is_valid (lvalue : Nat) : Bool := lvalue < 170

/-- `hash/checksum.rs` `FuzzyHashChecksumData::from_str_bytes`. -/
def checksum_from_str_bytes (sizeCksum : Nat) (bytes : List Nat) :
    Except ParseError (List Nat) :=
  if bytes.length ≠ sizeCksum * 2 then .error .InvalidStringLength
  else
    match decode_list decode_rev_1 bytes with
    | some l => .ok l
    | none => .error .InvalidCharacter

/-- `internals/length.rs` `FuzzyHashLengthEncoding::from_str_bytes`. -/
def length_from_str_bytes (bytes : List Nat) : Except ParseError Nat :=
  if bytes.length ≠ 2 then .error .InvalidStringLength
  else
    match decode_rev_1 (bytes.getD 0 0) (bytes.getD 1 0) with
    | some v => .ok v
    | none => .error .InvalidCharacter

/-- Modelled from the spec: `FuzzyHashQRatios::from_str_bytes` of
`hash/qratios.rs` (absent from `src/`; pinned by `hash/qratios/tests.rs`):
two hex digits with swapped nibble order, like the other header bytes. -/
def qratios_from_str_bytes (bytes : List Nat) : Except ParseError Nat :=
  if bytes.length ≠ 2 then .error .InvalidStringLength
  else
    match decode_rev_1 (bytes.getD 0 0) (bytes.getD 1 0) with
    | some v => .ok v
    | none => .error .InvalidCharacter

/-- `hash/body.rs` `FuzzyHashBodyData::from_str_bytes`. -/
def body_from_str_bytes (sizeBody : Nat) (bytes : List Nat) :
    Except ParseError (List Nat) :=
  if bytes.length ≠ sizeBody * 2 then .error .InvalidStringLength
  else
    match decode_list decode_1 bytes with
    | some l => .ok l
    | none => .error .InvalidCharacter

/-- The body of `hash.rs` `FuzzyHash::from_str_bytes` after the prefix
handling: checksum, length, Q-ratio pair and body in order, with the strict
checks compiled in by the `strict-parser` feature modelled as the `strict`
flag. -/
def parse_parts (v : VariantParams) (strict : Bool) (bytes : List Nat) :
    Except ParseError FuzzyHashDigest :=
  match checksum_from_str_bytes v.sizeCksum (bytes.take (v.sizeCksum * 2)) with
  | .error e => .error e
  | .ok cks =>
    if strict = true ∧ checksum_is_valid v cks = false then .error .InvalidChecksum
    else
      let bytes1 := bytes.drop (v.sizeCksum * 2)
      match length_from_str_bytes (bytes1.take 2) with
      | .error e => .error e
      | .ok lvalue =>
        if strict = true ∧ lvalue_is_valid lvalue = false then .error .LengthIsTooLarge
        else
          match qratios_from_str_bytes ((bytes1.drop 2).take 2) with
          | .error e => .error e
          | .ok qr =>
            match body_from_str_bytes (v.sizeBuckets / 4) (bytes1.drop 4) with
            | .error e => .error e
            | .ok body => .ok ⟨cks, lvalue, qr, body⟩

/-- `FuzzyHash::from_str_bytes` with an explicit prefix mode
(`false` = `HexStringPrefix::Empty`, `true` = `WithVersion`). -/
def from_str_bytes_p (v : VariantParams) (strict : Bool) (bytes0 : List Nat)
    (withVersion : Bool) : Except ParseError FuzzyHashDigest :=
  if withVersion then
    if bytes0.length ≠ LEN_IN_STR v then .error .InvalidStringLength
    else if bytes0.take 2 ≠ [0x54, 0x31] then .error .InvalidPrefixTag
    else parse_parts v strict (bytes0.drop 2)
  else
    if bytes0.length ≠ LEN_IN_STR_EXCEPT_PREFIX v then .error .InvalidStringLength
    else parse_parts v strict bytes0

/-- `FuzzyHash::from_str_bytes`: `none` auto-detects the prefix from the
string length. -/
def from_str_bytes (v : VariantParams) (strict : Bool) (bytes0 : List Nat)
    (pfxMode : Option Bool) : Except ParseError FuzzyHashDigest :=
  match pfxMode with
  | none =>
    if bytes0.length = LEN_IN_STR_EXCEPT_PREFIX v then from_str_bytes_p v strict bytes0 false
    else if bytes0.length = LEN_IN_STR v then from_str_bytes_p v strict bytes0 true
    else .error .InvalidStringLength
  | some p => from_str_bytes_p v strict bytes0 p

/-- `hash.rs` `TryFrom<&[u8]>` / `TryFrom<&[u8; N]>`: the binary parser. -/
def from_bytes (v : VariantParams) (strict : Bool) (value : List Nat) :
    Except ParseError FuzzyHashDigest :=
  if value.length ≠ SIZE_IN_BYTES v then .error .InvalidStringLength
  else
    let cks := value.take v.sizeCksum
    if strict = true ∧ checksum_is_valid v cks = false then .error .InvalidChecksum
    else
      let lvalue := value.getD v.sizeCksum 0
      if strict = true ∧ lvalue_is_valid lvalue = false then .error .LengthIsTooLarge
      else
        .ok ⟨cks, lvalue, value.getD (v.sizeCksum + 1) 0, value.drop (v.sizeCksum + 2)⟩

/-- `hash.rs` `FuzzyHash::store_into_bytes`: checksum, length code, Q-ratio
pair, body, in natural byte order. -/
def store_into_bytes (d : FuzzyHashDigest) : List Nat :=
  d.checksum ++ [d.lvalue] ++ [d.qratios] ++ d.body

/-- `hash.rs` `FuzzyHash::store_into_str_bytes`: optional `T1` tag, then
nibble-swapped hex for the header bytes and natural hex for the body. -/
def store_into_str_bytes (d : FuzzyHashDigest) (withVersion : Bool) : List Nat :=
  (if withVersion then [0x54, 0x31] else []) ++
    encode_rev_array d.checksum ++ encode_rev_1 d.lvalue ++ encode_rev_1 d.qratios ++
    encode_array d.body

lemma decode_rev_encode_rev (b : Nat) (hb : b < 256) :
    decode_rev_1 (hexDigit (b &&& 0x0f)) (hexDigit (b >>> 4)) = some b := by
  have hall : ∀ x, x < 256 →
      decode_rev_1 (hexDigit (x &&& 0x0f)) (hexDigit (x >>> 4)) = some x := by decide
  exact hall b hb

lemma decode_encode (b : Nat) (hb : b < 256) :
    decode_1 (hexDigit (b >>> 4)) (hexDigit (b &&& 0x0f)) = some b := by
  have hall : ∀ x, x < 256 →
      decode_1 (hexDigit (x >>> 4)) (hexDigit (x &&& 0x0f)) = some x := by decide
  exact hall b hb

lemma encode_rev_array_length (l : List Nat) : (encode_rev_array l).length = 2 * l.length := by
  induction l with
  | nil => rfl
  | cons a rest ih =>
    simp only [encode_rev_array, List.flatMap_cons, List.length_append] at *
    simp [encode_rev_1, ih]
    omega

lemma encode_array_length (l : List Nat) : (encode_array l).length = 2 * l.length := by
  induction l with
  | nil => rfl
  | cons a rest ih =>
    simp only [encode_array, List.flatMap_cons, List.length_append] at *
    simp [encode_1, ih]
    omega

lemma decode_list_rev_roundtrip (l : List Nat) (hl : ∀ x ∈ l, x < 256) :
    decode_list decode_rev_1 (encode_rev_array l) = some l := by
  induction l with
  | nil => rfl
  | cons a rest ih =>
    have ha : a < 256 := hl a (by simp)
    have hrest := ih (fun x hx => hl x (by simp [hx]))
    simp only [encode_rev_array, List.flatMap_cons] at *
    simp only [encode_rev_1, List.cons_append, List.nil_append]
    rw [decode_list]
    rw [decode_rev_encode_rev a ha, hrest]

lemma decode_list_roundtrip (l : List Nat) (hl : ∀ x ∈ l, x < 256) :
    decode_list decode_1 (encode_array l) = some l := by
  induction l with
  | nil => rfl
  | cons a rest ih =>
    have ha : a < 256 := hl a (by simp)
    have hrest := ih (fun x hx => hl x (by simp [hx]))
    simp only [encode_array, List.flatMap_cons] at *
    simp only [encode_1, List.cons_append, List.nil_append]
    rw [decode_list]
    rw [decode_encode a ha, hrest]

lemma checksum_from_str_roundtrip (C : Nat) (cks : List Nat) (hc : cks.length = C)
    (hcb : ∀ x ∈ cks, x < 256) :
    checksum_from_str_bytes C (encode_rev_array cks) = .ok cks := by
  unfold checksum_from_str_bytes
  rw [if_neg (by rw [encode_rev_array_length, hc]; omega)]
  rw [decode_list_rev_roundtrip cks hcb]

lemma length_from_str_roundtrip (lv : Nat) (hl : lv < 256) :
    length_from_str_bytes (encode_rev_1 lv) = .ok lv := by
  unfold length_from_str_bytes encode_rev_1
  rw [if_neg (by simp)]
  have h := decode_rev_encode_rev lv hl
  simp only [List.getD_cons_zero, List.getD_cons_succ]
  rw [h]

lemma qratios_from_str_roundtrip (qr : Nat) (hq : qr < 256) :
    qratios_from_str_bytes (encode_rev_1 qr) = .ok qr := by
  unfold qratios_from_str_bytes encode_rev_1
  rw [if_neg (by simp)]
  have h := decode_rev_encode_rev qr hq
  simp only [List.getD_cons_zero, List.getD_cons_succ]
  rw [h]

lemma body_from_str_roundtrip (N : Nat) (body : List Nat) (hb : body.length = N)
    (hbb : ∀ x ∈ body, x < 256) :
    body_from_str_bytes N (encode_array body) = .ok body := by
  unfold body_from_str_bytes
  rw [if_neg (by rw [encode_array_length, hb]; omega)]
  rw [decode_list_roundtrip body hbb]

lemma parse_parts_emit (v : VariantParams) (strict : Bool) (d : FuzzyHashDigest)
    (hc : d.checksum.length = v.sizeCksum) (hcb : ∀ x ∈ d.checksum, x < 256)
    (hl : d.lvalue < 256) (hq : d.qratios < 256)
    (hb : d.body.length = v.sizeBuckets / 4) (hbb : ∀ x ∈ d.body, x < 256) :
    parse_parts v strict
      (encode_rev_array d.checksum ++ encode_rev_1 d.lvalue ++ encode_rev_1 d.qratios ++
        encode_array d.body) =
      (if strict = true ∧ checksum_is_valid v d.checksum = false then
        .error .InvalidChecksum
      else if strict = true ∧ lvalue_is_valid d.lvalue = false then
        .error .LengthIsTooLarge
      else .ok d) := by
  have hlen_c : (encode_rev_array d.checksum).length = v.sizeCksum * 2 := by
    rw [encode_rev_array_length, hc]
    omega
  have hlen_l : (encode_rev_1 d.lvalue).length = 2 := by simp [encode_rev_1]
  have hlen_q : (encode_rev_1 d.qratios).length = 2 := by simp [encode_rev_1]
  have h1 : ((encode_rev_1 d.lvalue ++ (encode_rev_1 d.qratios ++ encode_array d.body)).take 2)
      = encode_rev_1 d.lvalue := List.take_left' hlen_l
  have h2 : ((encode_rev_1 d.lvalue ++ (encode_rev_1 d.qratios ++ encode_array d.body)).drop 2)
      = encode_rev_1 d.qratios ++ encode_array d.body := List.drop_left' hlen_l
  have h3 : ((encode_rev_1 d.qratios ++ encode_array d.body).take 2)
      = encode_rev_1 d.qratios := List.take_left' hlen_q
  have h4 : ((encode_rev_1 d.lvalue ++ (encode_rev_1 d.qratios ++ encode_array d.body)).drop 4)
      = encode_array d.body := by
    rw [show encode_rev_1 d.lvalue ++ (encode_rev_1 d.qratios ++ encode_array d.body)
        = (encode_rev_1 d.lvalue ++ encode_rev_1 d.qratios) ++ encode_array d.body from
      (List.append_assoc _ _ _).symm]
    exact List.drop_left' (by simp [encode_rev_1])
  unfold parse_parts
  rw [List.append_assoc, List.append_assoc]
  rw [List.take_left' hlen_c, List.drop_left' hlen_c]
  rw [checksum_from_str_roundtrip v.sizeCksum d.checksum hc hcb]
  try dsimp only
  by_cases hck : strict = true ∧ checksum_is_valid v d.checksum = false
  · rw [if_pos hck, if_pos hck]
  · rw [if_neg hck, if_neg hck]
    try dsimp only
    rw [h1, h2, h3, h4]
    rw [length_from_str_roundtrip d.lvalue hl]
    try dsimp only
    by_cases hlv : strict = true ∧ lvalue_is_valid d.lvalue = false
    · rw [if_pos hlv, if_pos hlv]
    · rw [if_neg hlv, if_neg hlv]
      rw [qratios_from_str_roundtrip d.qratios hq]
      try dsimp only
      rw [body_from_str_roundtrip (v.sizeBuckets / 4) d.body hb hbb]

lemma from_str_bytes_emit (v : VariantParams) (strict : Bool) (d : FuzzyHashDigest)
    (hc : d.checksum.length = v.sizeCksum) (hcb : ∀ x ∈ d.checksum, x < 256)
    (hl : d.lvalue < 256) (hq : d.qratios < 256)
    (hb : d.body.length = v.sizeBuckets / 4) (hbb : ∀ x ∈ d.body, x < 256) :
    from_str_bytes v strict (store_into_str_bytes d true) none =
      (if strict = true ∧ checksum_is_valid v d.checksum = false then
        .error .InvalidChecksum
      else if strict = true ∧ lvalue_is_valid d.lvalue = false then
        .error .LengthIsTooLarge
      else .ok d) := by
  have hlen_str : (store_into_str_bytes d true).length = LEN_IN_STR v := by
    simp only [store_into_str_bytes, eq_self_iff_true, if_true, List.length_append,
      encode_rev_array_length, encode_array_length, hc, hb, encode_rev_1,
      List.length_cons, List.length_nil, LEN_IN_STR, LEN_IN_STR_EXCEPT_PREFIX,
      SIZE_IN_BYTES]
    omega
  have hne : LEN_IN_STR v ≠ LEN_IN_STR_EXCEPT_PREFIX v := by
    simp only [LEN_IN_STR]
    omega
  unfold from_str_bytes
  rw [if_neg (by rw [hlen_str]; exact hne), if_pos hlen_str]
  unfold from_str_bytes_p
  rw [if_pos rfl, if_neg (by rw [hlen_str]; simp)]
  have hsplit : store_into_str_bytes d true =
      [0x54, 0x31] ++ (encode_rev_array d.checksum ++ encode_rev_1 d.lvalue ++
        encode_rev_1 d.qratios ++ encode_array d.body) := by
    simp only [store_into_str_bytes, eq_self_iff_true, if_true, List.append_assoc]
  rw [hsplit]
  rw [if_neg (by simp)]
  rw [List.drop_left' (by simp : ([0x54, 0x31] : List Nat).length = 2)]
  exact parse_parts_emit v strict d hc hcb hl hq hb hbb

lemma from_bytes_emit (v : VariantParams) (strict : Bool) (d : FuzzyHashDigest)
    (hc : d.checksum.length = v.sizeCksum)
    (hb : d.body.length = v.sizeBuckets / 4) :
    from_bytes v strict (store_into_bytes d) =
      (if strict = true ∧ checksum_is_valid v d.checksum = false then
        .error .InvalidChecksum
      else if strict = true ∧ lvalue_is_valid d.lvalue = false then
        .error .LengthIsTooLarge
      else .ok d) := by
  unfold from_bytes store_into_bytes
  have hsize : (d.checksum ++ [d.lvalue] ++ [d.qratios] ++ d.body).length =
      SIZE_IN_BYTES v := by
    simp [SIZE_IN_BYTES, hc, hb]
    omega
  rw [if_neg (by rw [hsize]; exact fun h => h rfl)]
  have hassoc : d.checksum ++ [d.lvalue] ++ [d.qratios] ++ d.body =
      d.checksum ++ ([d.lvalue] ++ ([d.qratios] ++ d.body)) := by
    simp [List.append_assoc]
  rw [hassoc]
  rw [List.take_left' hc]
  by_cases hck : strict = true ∧ checksum_is_valid v d.checksum = false
  · rw [if_pos hck, if_pos hck]
  · rw [if_neg hck, if_neg hck]
    dsimp only
    rw [List.getD_append_right _ _ _ _ (by omega : d.checksum.length ≤ v.sizeCksum)]
    rw [hc, Nat.sub_self]
    have hgd0 : ([d.lvalue] ++ ([d.qratios] ++ d.body)).getD 0 0 = d.lvalue := rfl
    rw [hgd0]
    by_cases hlv : strict = true ∧ lvalue_is_valid d.lvalue = false
    · rw [if_pos hlv, if_pos hlv]
    · rw [if_neg hlv, if_neg hlv]
      rw [List.getD_append_right _ _ _ _ (by rw [hc]; omega :
        d.checksum.length ≤ v.sizeCksum + 1)]
      rw [hc, Nat.add_sub_cancel_left]
      have hdrop : (d.checksum ++ ([d.lvalue] ++ ([d.qratios] ++ d.body))).drop
          (v.sizeCksum + 2) = d.body := by
        rw [show d.checksum ++ ([d.lvalue] ++ ([d.qratios] ++ d.body)) =
            (d.checksum ++ [d.lvalue] ++ [d.qratios]) ++ d.body by simp]
        exact List.drop_left' (by simp [hc])
      rw [hdrop]
      rfl

/-- C3: emitted digests parse back exactly (hexadecimal form with the `T1`
tag through the default, non-strict parser, and binary form likewise), and
prefix auto-detection on a full-length string behaves as an explicitly
declared present prefix. -/
theorem claim_C3_codec_roundtrip :
    ∀ (v : VariantParams) (d : FuzzyHashDigest),
      d.checksum.length = v.sizeCksum → (∀ x ∈ d.checksum, x < 256) →
      d.lvalue < 256 → d.qratios < 256 →
      d.body.length = v.sizeBuckets / 4 → (∀ x ∈ d.body, x < 256) →
      from_str_bytes v false (store_into_str_bytes d true) none = .ok d ∧
      from_bytes v false (store_into_bytes d) = .ok d ∧
      (∀ (strict : Bool) (bytes : List Nat), bytes.length = LEN_IN_STR v →
        from_str_bytes v strict bytes none = from_str_bytes v strict bytes (some true)) := by
  intro v d hc hcb hl hq hb hbb
  refine ⟨?_, ?_, ?_⟩
  · rw [from_str_bytes_emit v false d hc hcb hl hq hb hbb]
    simp
  · rw [from_bytes_emit v false d hc hb]
    simp
  · intro strict bytes hblen
    have hne : LEN_IN_STR v ≠ LEN_IN_STR_EXCEPT_PREFIX v := by
      simp only [LEN_IN_STR]
      omega
    unfold from_str_bytes
    rw [if_neg (by rw [hblen]; exact hne), if_pos hblen]

/-- C3 witness: round trip at a concrete normal-variant digest. -/
theorem claim_C3_codec_roundtrip_witness :
    from_str_bytes ⟨128, 1⟩ false
      (store_into_str_bytes (FuzzyHashDigest.mk [0x24] 0x35 0x7a (List.range 32)) true)
      none = .ok (FuzzyHashDigest.mk [0x24] 0x35 0x7a (List.range 32)) ∧
    from_bytes ⟨128, 1⟩ false
      (store_into_bytes (FuzzyHashDigest.mk [0x24] 0x35 0x7a (List.range 32))) =
      .ok (FuzzyHashDigest.mk [0x24] 0x35 0x7a (List.range 32)) ∧
    from_str_bytes ⟨128, 1⟩ true
      (store_into_str_bytes (FuzzyHashDigest.mk [0x24] 0x35 0x7a (List.range 32)) true)
      none =
    from_str_bytes ⟨128, 1⟩ true
      (store_into_str_bytes (FuzzyHashDigest.mk [0x24] 0x35 0x7a (List.range 32)) true)
      (some true) := by
  have h := claim_C3_codec_roundtrip ⟨128, 1⟩
    (FuzzyHashDigest.mk [0x24] 0x35 0x7a (List.range 32))
    (by decide) (by decide) (by decide) (by decide) (by simp) (by decide)
  exact ⟨h.1, h.2.1, h.2.2 true _ (by decide)⟩

/-- C9: with the strict parser, well-formed inputs whose length code is 170
or more are rejected as length-field-too-large (when their checksum field is
valid, which is always the case outside the 48-bucket 1-byte-checksum
variant), and 48-bucket inputs whose checksum byte exceeds 48 are rejected
as invalid-checksum (this check runs first); without the strict parser both
kinds of input parse successfully.  Both the hexadecimal and the binary
parser behave this way. -/
theorem claim_C9_strict_parse_checks :
    (∀ (v : VariantParams) (d : FuzzyHashDigest),
      d.checksum.length = v.sizeCksum → (∀ x ∈ d.checksum, x < 256) →
      d.lvalue < 256 → d.qratios < 256 →
      d.body.length = v.sizeBuckets / 4 → (∀ x ∈ d.body, x < 256) →
      checksum_is_valid v d.checksum = true → 170 ≤ d.lvalue →
      from_str_bytes v true (store_into_str_bytes d true) none =
        .error .LengthIsTooLarge ∧
      from_bytes v true (store_into_bytes d) = .error .LengthIsTooLarge) ∧
    (∀ d : FuzzyHashDigest,
      d.checksum.length = 1 → (∀ x ∈ d.checksum, x < 256) →
      d.lvalue < 256 → d.qratios < 256 →
      d.body.length = 12 → (∀ x ∈ d.body, x < 256) →
      48 < d.checksum.getD 0 0 →
      from_str_bytes ⟨48, 1⟩ true (store_into_str_bytes d true) none =
        .error .InvalidChecksum ∧
      from_bytes ⟨48, 1⟩ true (store_into_bytes d) = .error .InvalidChecksum) ∧
    (∀ (v : VariantParams) (d : FuzzyHashDigest),
      d.checksum.length = v.sizeCksum → (∀ x ∈ d.checksum, x < 256) →
      d.lvalue < 256 → d.qratios < 256 →
      d.body.length = v.sizeBuckets / 4 → (∀ x ∈ d.body, x < 256) →
      from_str_bytes v false (store_into_str_bytes d true) none = .ok d ∧
      from_bytes v false (store_into_bytes d) = .ok d) := by
  refine ⟨?_, ?_, ?_⟩
  · intro v d hc hcb hl hq hb hbb hvalid hlv
    have hcond1 : ¬((true : Bool) = true ∧ checksum_is_valid v d.checksum = false) := by
      rintro ⟨_, h⟩
      rw [hvalid] at h
      cases h
    have hcond2 : ((true : Bool) = true ∧ lvalue_is_valid d.lvalue = false) := by
      refine ⟨rfl, ?_⟩
      simp only [lvalue_is_valid, decide_eq_false_iff_not]
      omega
    constructor
    · rw [from_str_bytes_emit v true d hc hcb hl hq hb hbb]
      rw [if_neg hcond1, if_pos hcond2]
    · rw [from_bytes_emit v true d hc hb]
      rw [if_neg hcond1, if_pos hcond2]
  · intro d hc hcb hl hq hb hbb hck
    have hcond1 : ((true : Bool) = true ∧
        checksum_is_valid ⟨48, 1⟩ d.checksum = false) := by
      refine ⟨rfl, ?_⟩
      simp only [checksum_is_valid]
      norm_num
      rw [List.getD_eq_getElem?_getD] at hck
      omega
    constructor
    · rw [from_str_bytes_emit ⟨48, 1⟩ true d hc hcb hl hq (by simpa using hb) hbb]
      rw [if_pos hcond1]
    · rw [from_bytes_emit ⟨48, 1⟩ true d hc (by simpa using hb)]
      rw [if_pos hcond1]
  · intro v d hc hcb hl hq hb hbb
    constructor
    · rw [from_str_bytes_emit v false d hc hcb hl hq hb hbb]
      simp
    · rw [from_bytes_emit v false d hc hb]
      simp

/-- C9 witness: a 128-bucket digest with length code 200 is rejected as
length-field-too-large, and a 48-bucket digest with checksum byte 255 is
rejected as invalid-checksum; both parse fine without the strict parser. -/
theorem claim_C9_strict_parse_checks_witness :
    (from_str_bytes ⟨128, 1⟩ true
      (store_into_str_bytes (FuzzyHashDigest.mk [0] 200 0 (List.range 32)) true) none =
      .error .LengthIsTooLarge) ∧
    (from_str_bytes ⟨48, 1⟩ true
      (store_into_str_bytes (FuzzyHashDigest.mk [255] 0 0 (List.range 12)) true) none =
      .error .InvalidChecksum) ∧
    (from_bytes ⟨128, 1⟩ false
      (store_into_bytes (FuzzyHashDigest.mk [0] 200 0 (List.range 32))) =
      .ok (FuzzyHashDigest.mk [0] 200 0 (List.range 32))) :=
  ⟨(claim_C9_strict_parse_checks.1 ⟨128, 1⟩ (FuzzyHashDigest.mk [0] 200 0 (List.range 32))
      (by decide) (by decide) (by decide) (by decide) (by simp) (by decide)
      (by decide) (by decide)).1,
   (claim_C9_strict_parse_checks.2.1 (FuzzyHashDigest.mk [255] 0 0 (List.range 12))
      (by decide) (by decide) (by decide) (by decide) (by simp) (by decide)
      (by decide)).1,
   (claim_C9_strict_parse_checks.2.2 ⟨128, 1⟩ (FuzzyHashDigest.mk [0] 200 0 (List.range 32))
      (by decide) (by decide) (by decide) (by decide) (by simp) (by decide)).2⟩

lemma window_loop_append (v : VariantParams) (l1 l2 : List Nat) :
    ∀ (b0 b1 b2 b3 : Nat) (cks bks : List Nat),
      window_loop v b0 b1 b2 b3 cks bks (l1 ++ l2) =
        window_loop v
          (window_loop v b0 b1 b2 b3 cks bks l1).2.2.1
          (window_loop v b0 b1 b2 b3 cks bks l1).2.2.2.1
          (window_loop v b0 b1 b2 b3 cks bks l1).2.2.2.2.1
          (window_loop v b0 b1 b2 b3 cks bks l1).2.2.2.2.2
          (window_loop v b0 b1 b2 b3 cks bks l1).1
          (window_loop v b0 b1 b2 b3 cks bks l1).2.1 l2 := by
  induction l1 with
  | nil =>
    intro b0 b1 b2 b3 cks bks
    rfl
  | cons b4 rest ih =>
    intro b0 b1 b2 b3 cks bks
    rw [List.cons_append, window_loop, window_loop]
    exact ih b1 b2 b3 b4 _ _

lemma window_loop_regs (v : VariantParams) (l : List Nat) :
    ∀ (b0 b1 b2 b3 : Nat) (cks bks : List Nat),
      (window_loop v b0 b1 b2 b3 cks bks l).2.2 =
        ((([b0, b1, b2, b3] ++ l).drop l.length).getD 0 0,
         (([b0, b1, b2, b3] ++ l).drop l.length).getD 1 0,
         (([b0, b1, b2, b3] ++ l).drop l.length).getD 2 0,
         (([b0, b1, b2, b3] ++ l).drop l.length).getD 3 0) := by
  induction l with
  | nil =>
    intro b0 b1 b2 b3 cks bks
    rfl
  | cons b4 rest ih =>
    intro b0 b1 b2 b3 cks bks
    rw [window_loop]
    rw [ih b1 b2 b3 b4]
    have hsplit : ([b0, b1, b2, b3] ++ b4 :: rest).drop (b4 :: rest).length =
        ([b1, b2, b3, b4] ++ rest).drop rest.length := by
      rw [show [b0, b1, b2, b3] ++ b4 :: rest = b0 :: ([b1, b2, b3, b4] ++ rest) by simp]
      rw [List.length_cons, List.drop_succ_cons]
    rw [hsplit]

lemma take_four_getD (s : List Nat) (hs : 4 ≤ s.length) :
    s.take 4 = [s.getD 0 0, s.getD 1 0, s.getD 2 0, s.getD 3 0] := by
  rcases s with _ | ⟨a, _ | ⟨b, _ | ⟨c, _ | ⟨d, rest⟩⟩⟩⟩
  · exfalso; simp only [List.length_nil] at hs; omega
  · exfalso; simp only [List.length_cons, List.length_nil] at hs; omega
  · exfalso; simp only [List.length_cons, List.length_nil] at hs; omega
  · exfalso; simp only [List.length_cons, List.length_nil] at hs; omega
  · rfl

/-- The normal form of a generator state obtained by feeding the byte
sequence `s` into a fresh generator: below four bytes everything sits in
the tail; from four bytes on, the bytes past the initial window (capped at
`2^32 - 4`) run through the window loop and the tail holds the last four
bytes of the processed prefix. -/
def normalState (v : VariantParams) (s : List Nat) : GenState :=
  if s.length < 4 then
    { buckets := List.replicate 256 0
      len := 0
      checksum := List.replicate v.sizeCksum 0
      tail := s ++ List.replicate (4 - s.length) 0
      tail_len := s.length }
  else
    let eff := s.take (4 + min (s.length - 4) GEN_MAX_LEN)
    let r := window_loop v (s.getD 0 0) (s.getD 1 0) (s.getD 2 0) (s.getD 3 0)
      (List.replicate v.sizeCksum 0) (List.replicate 256 0) (eff.drop 4)
    { buckets := r.2.1
      len := min (s.length - 4) GEN_MAX_LEN
      checksum := r.1
      tail := eff.drop (eff.length - 4)
      tail_len := 4 }

lemma normalState_of_lt_four (v : VariantParams) (s : List Nat) (hs : s.length < 4) :
    normalState v s =
      { buckets := List.replicate 256 0
        len := 0
        checksum := List.replicate v.sizeCksum 0
        tail := s ++ List.replicate (4 - s.length) 0
        tail_len := s.length } := by
  rw [normalState, if_pos hs]

lemma normalState_of_four_le (v : VariantParams) (s : List Nat) (hs : 4 ≤ s.length) :
    normalState v s =
      { buckets := (window_loop v (s.getD 0 0) (s.getD 1 0) (s.getD 2 0) (s.getD 3 0)
          (List.replicate v.sizeCksum 0) (List.replicate 256 0)
          ((s.take (4 + min (s.length - 4) GEN_MAX_LEN)).drop 4)).2.1
        len := min (s.length - 4) GEN_MAX_LEN
        checksum := (window_loop v (s.getD 0 0) (s.getD 1 0) (s.getD 2 0) (s.getD 3 0)
          (List.replicate v.sizeCksum 0) (List.replicate 256 0)
          ((s.take (4 + min (s.length - 4) GEN_MAX_LEN)).drop 4)).1
        tail := (s.take (4 + min (s.length - 4) GEN_MAX_LEN)).drop
          (min (s.length - 4) GEN_MAX_LEN)
        tail_len := 4 } := by
  rw [normalState, if_neg (by omega : ¬ s.length < 4)]
  have hl : (s.take (4 + min (s.length - 4) GEN_MAX_LEN)).length
      = 4 + min (s.length - 4) GEN_MAX_LEN := by
    rw [List.length_take]
    omega
  dsimp only
  rw [hl, Nat.add_sub_cancel_left]

lemma normalState_length_four (v : VariantParams) (s : List Nat) (h : s.length = 4) :
    normalState v s =
      { buckets := List.replicate 256 0
        len := 0
        checksum := List.replicate v.sizeCksum 0
        tail := s
        tail_len := 4 } := by
  rw [normalState_of_four_le v s (le_of_eq h.symm)]
  have hm : min (s.length - 4) GEN_MAX_LEN = 0 := by rw [h]; simp
  rw [hm]
  have he : s.take (4 + 0) = s := List.take_of_length_le (by omega)
  rw [he]
  have hd : s.drop 4 = [] := List.drop_eq_nil_of_le (by omega)
  rw [hd]
  rfl

lemma normalState_append_small (v : VariantParams) (s y : List Nat) (hs : 4 ≤ s.length)
    (hy : s.length - 4 + y.length ≤ GEN_MAX_LEN) :
    normalState v (s ++ y) =
      { buckets := (window_loop v ((s.drop (s.length - 4)).getD 0 0)
          ((s.drop (s.length - 4)).getD 1 0) ((s.drop (s.length - 4)).getD 2 0)
          ((s.drop (s.length - 4)).getD 3 0)
          (window_loop v (s.getD 0 0) (s.getD 1 0) (s.getD 2 0) (s.getD 3 0)
            (List.replicate v.sizeCksum 0) (List.replicate 256 0) (s.drop 4)).1
          (window_loop v (s.getD 0 0) (s.getD 1 0) (s.getD 2 0) (s.getD 3 0)
            (List.replicate v.sizeCksum 0) (List.replicate 256 0) (s.drop 4)).2.1
          y).2.1
        len := s.length - 4 + y.length
        checksum := (window_loop v ((s.drop (s.length - 4)).getD 0 0)
          ((s.drop (s.length - 4)).getD 1 0) ((s.drop (s.length - 4)).getD 2 0)
          ((s.drop (s.length - 4)).getD 3 0)
          (window_loop v (s.getD 0 0) (s.getD 1 0) (s.getD 2 0) (s.getD 3 0)
            (List.replicate v.sizeCksum 0) (List.replicate 256 0) (s.drop 4)).1
          (window_loop v (s.getD 0 0) (s.getD 1 0) (s.getD 2 0) (s.getD 3 0)
            (List.replicate v.sizeCksum 0) (List.replicate 256 0) (s.drop 4)).2.1
          y).1
        tail := if 4 ≤ y.length then y.drop (y.length - 4)
          else s.drop (s.length - 4 + y.length) ++ y
        tail_len := 4 } := by
  have h1 : 4 ≤ (s ++ y).length := by rw [List.length_append]; omega
  rw [normalState_of_four_le v (s ++ y) h1]
  have hm : min ((s ++ y).length - 4) GEN_MAX_LEN = s.length - 4 + y.length := by
    rw [List.length_append]; omega
  rw [hm]
  have heff : (s ++ y).take (4 + (s.length - 4 + y.length)) = s ++ y :=
    List.take_of_length_le (by rw [List.length_append]; omega)
  rw [heff]
  have hdrop4 : (s ++ y).drop 4 = s.drop 4 ++ y := by
    rw [List.drop_append_eq_append_drop]
    have h0 : 4 - s.length = 0 := by omega
    rw [h0, List.drop_zero]
  rw [hdrop4]
  rw [List.getD_append s y 0 0 (by omega), List.getD_append s y 0 1 (by omega),
      List.getD_append s y 0 2 (by omega), List.getD_append s y 0 3 (by omega)]
  rw [window_loop_append v (s.drop 4) y]
  rw [window_loop_regs v (s.drop 4)]
  dsimp only
  rw [← take_four_getD s hs, List.take_append_drop, List.length_drop]
  by_cases hy4 : 4 ≤ y.length
  · rw [if_pos hy4]
    rw [List.drop_append_eq_append_drop,
        List.drop_eq_nil_of_le (show s.length ≤ s.length - 4 + y.length by omega),
        List.nil_append]
    have hidx : s.length - 4 + y.length - s.length = y.length - 4 := by omega
    rw [hidx]
  · rw [if_neg hy4]
    rw [List.drop_append_eq_append_drop]
    have hidx : s.length - 4 + y.length - s.length = 0 := by omega
    rw [hidx, List.drop_zero]

lemma normalState_append_trunc (v : VariantParams) (s y : List Nat) (hs : 4 ≤ s.length)
    (hsat : s.length - 4 < GEN_MAX_LEN)
    (hcap : GEN_MAX_LEN - (s.length - 4) < y.length) :
    normalState v (s ++ y)
      = normalState v (s ++ y.take (GEN_MAX_LEN - (s.length - 4))) := by
  have h1 : 4 ≤ (s ++ y).length := by rw [List.length_append]; omega
  have h2 : (s ++ y.take (GEN_MAX_LEN - (s.length - 4))).length = 4 + GEN_MAX_LEN := by
    rw [List.length_append, List.length_take]
    omega
  rw [normalState_of_four_le v (s ++ y) h1,
      normalState_of_four_le v (s ++ y.take (GEN_MAX_LEN - (s.length - 4))) (by omega)]
  have hm1 : min ((s ++ y).length - 4) GEN_MAX_LEN = GEN_MAX_LEN := by
    rw [List.length_append]; omega
  have hm2 : min ((s ++ y.take (GEN_MAX_LEN - (s.length - 4))).length - 4) GEN_MAX_LEN
      = GEN_MAX_LEN := by
    rw [h2]; omega
  rw [hm1, hm2]
  have ht2 : (s ++ y.take (GEN_MAX_LEN - (s.length - 4))).take (4 + GEN_MAX_LEN)
      = s ++ y.take (GEN_MAX_LEN - (s.length - 4)) := List.take_of_length_le h2.le
  have ht1 : (s ++ y).take (4 + GEN_MAX_LEN)
      = s ++ y.take (GEN_MAX_LEN - (s.length - 4)) := by
    rw [List.take_append_eq_append_take,
        List.take_of_length_le (show s.length ≤ 4 + GEN_MAX_LEN by omega)]
    congr 2
    omega
  rw [ht1, ht2]
  rw [List.getD_append s y 0 0 (by omega), List.getD_append s y 0 1 (by omega),
      List.getD_append s y 0 2 (by omega), List.getD_append s y 0 3 (by omega),
      List.getD_append s (y.take (GEN_MAX_LEN - (s.length - 4))) 0 0 (by omega),
      List.getD_append s (y.take (GEN_MAX_LEN - (s.length - 4))) 0 1 (by omega),
      List.getD_append s (y.take (GEN_MAX_LEN - (s.length - 4))) 0 2 (by omega),
      List.getD_append s (y.take (GEN_MAX_LEN - (s.length - 4))) 0 3 (by omega)]

lemma gen_update_filled_normal (v : VariantParams) (s y : List Nat) (hs : 4 ≤ s.length) :
    gen_update_filled v (normalState v s) y = normalState v (s ++ y) := by
  by_cases hsat : GEN_MAX_LEN ≤ s.length - 4
  · -- saturated: the update is a no-op and appending changes nothing
    rw [normalState_of_four_le v s hs]
    have hm : min (s.length - 4) GEN_MAX_LEN = GEN_MAX_LEN := min_eq_right hsat
    rw [hm]
    rw [gen_update_filled, if_pos (le_refl GEN_MAX_LEN)]
    rw [normalState_of_four_le v (s ++ y) (by rw [List.length_append]; omega)]
    have hm' : min ((s ++ y).length - 4) GEN_MAX_LEN = GEN_MAX_LEN := by
      rw [List.length_append]; omega
    rw [hm']
    have heff : (s ++ y).take (4 + GEN_MAX_LEN) = s.take (4 + GEN_MAX_LEN) := by
      rw [List.take_append_eq_append_take]
      have h0 : 4 + GEN_MAX_LEN - s.length = 0 := by omega
      rw [h0, List.take_zero, List.append_nil]
    rw [heff]
    rw [List.getD_append s y 0 0 (by omega), List.getD_append s y 0 1 (by omega),
        List.getD_append s y 0 2 (by omega), List.getD_append s y 0 3 (by omega)]
  · -- unsaturated: compose the window loops
    push_neg at hsat
    rw [normalState_of_four_le v s hs]
    have hm : min (s.length - 4) GEN_MAX_LEN = s.length - 4 := min_eq_left hsat.le
    rw [hm]
    have heffs : s.take (4 + (s.length - 4)) = s := List.take_of_length_le (by omega)
    rw [heffs]
    rw [gen_update_filled]
    dsimp only
    rw [if_neg (show ¬ GEN_MAX_LEN ≤ s.length - 4 by omega)]
    by_cases hcap : GEN_MAX_LEN - (s.length - 4) < y.length
    · rw [if_pos hcap]
      rw [normalState_append_trunc v s y hs hsat hcap]
      rw [normalState_append_small v s (y.take (GEN_MAX_LEN - (s.length - 4))) hs
        (by rw [List.length_take]; omega)]
      rw [List.drop_drop]
    · rw [if_neg hcap]
      rw [normalState_append_small v s y hs (by omega)]
      rw [List.drop_drop]

lemma gen_update_normal (v : VariantParams) (s y : List Nat) :
    gen_update v (normalState v s) y = normalState v (s ++ y) := by
  by_cases hs : s.length < 4
  · rw [normalState_of_lt_four v s hs]
    rw [gen_update]
    dsimp only
    rw [if_pos hs]
    have ht1 : (s ++ List.replicate (4 - s.length) 0).take s.length = s :=
      List.take_left' rfl
    by_cases hy : y.length ≤ 4 - s.length
    · rw [if_pos hy, ht1]
      have ht2 : (s ++ List.replicate (4 - s.length) 0).drop (s.length + y.length)
          = List.replicate (4 - s.length - y.length) 0 := by
        rw [List.drop_append_eq_append_drop,
            List.drop_eq_nil_of_le (show s.length ≤ s.length + y.length by omega),
            List.nil_append, List.drop_replicate]
        congr 1
        omega
      rw [ht2]
      by_cases hsy : s.length + y.length < 4
      · rw [normalState_of_lt_four v (s ++ y) (by rw [List.length_append]; omega)]
        rw [List.length_append]
        have harith : 4 - s.length - y.length = 4 - (s.length + y.length) := by omega
        rw [harith]
      · rw [normalState_length_four v (s ++ y) (by rw [List.length_append]; omega)]
        have h0 : 4 - s.length - y.length = 0 := by omega
        rw [h0, List.replicate_zero, List.append_nil]
        have h44 : s.length + y.length = 4 := by omega
        rw [h44]
    · rw [if_neg hy, ht1]
      have htl : s.length + (4 - s.length) = 4 := by omega
      rw [htl]
      have h4 : (s ++ y.take (4 - s.length)).length = 4 := by
        rw [List.length_append, List.length_take]
        omega
      rw [← normalState_length_four v (s ++ y.take (4 - s.length)) h4]
      rw [gen_update_filled_normal v (s ++ y.take (4 - s.length)) (y.drop (4 - s.length)) h4.ge]
      rw [List.append_assoc, List.take_append_drop]
  · rw [gen_update]
    have h4 : ¬ (normalState v s).tail_len < 4 := by
      rw [normalState_of_four_le v s (by omega)]
      dsimp only
      omega
    rw [if_neg h4]
    exact gen_update_filled_normal v s y (by omega)

lemma normalState_nil (v : VariantParams) : normalState v [] = GenState.fresh v := rfl

/-- C1: for every variant and all byte sequences `x` and `y`, updating a
fresh generator with `x` and then with `y` leaves exactly the same state
(buckets, length, checksum, tail, tail fill) as updating a fresh generator
with the concatenation `x ++ y`; consequently `finalize` returns the same
result on both, for every option set and either Q-ratio computation mode. -/
theorem claim_C1_update_concat (v : VariantParams) (x y : List Nat) :
    gen_update v (gen_update v (GenState.fresh v) x) y
        = gen_update v (GenState.fresh v) (x ++ y) ∧
    ∀ (opts : GeneratorOptions) (legacyQR : Nat → Nat → Nat),
      gen_finalize v (gen_update v (gen_update v (GenState.fresh v) x) y) opts legacyQR
        = gen_finalize v (gen_update v (GenState.fresh v) (x ++ y)) opts legacyQR := by
  have h : gen_update v (gen_update v (GenState.fresh v) x) y
      = gen_update v (GenState.fresh v) (x ++ y) := by
    rw [← normalState_nil v, gen_update_normal v [] x, gen_update_normal v ([] ++ x) y,
        gen_update_normal v [] (x ++ y), List.nil_append, List.nil_append]
  exact ⟨h, fun opts legacyQR => by rw [h]⟩

theorem claim_C1_update_concat_witness :
    gen_update ⟨128, 1⟩
        (gen_update ⟨128, 1⟩ (GenState.fresh ⟨128, 1⟩) [10, 20, 30]) [40, 50, 60, 70]
      = gen_update ⟨128, 1⟩ (GenState.fresh ⟨128, 1⟩) ([10, 20, 30] ++ [40, 50, 60, 70]) :=
  (claim_C1_update_concat ⟨128, 1⟩ [10, 20, 30] [40, 50, 60, 70]).1

/-! ### C5: pseudo-SIMD body distance vs the scalar per-dibit reference -/

/-- `dist_body.rs` `naive::distance_dibits`: absolute difference of two
dibits, with the difference 3 rewritten to the outlier value 6. -/
def distance_dibits (x y : Nat) : Nat :=
  let diff := max x y - min x y
  if diff = 3 then 6 else diff

/-- The per-byte part of `dist_body.rs` `naive::distance`: extract the four
dibits of each byte and sum the dibit distances. -/
def byte_dibit_distance (x y : Nat) : Nat :=
  ((List.range 4).map (fun i =>
    distance_dibits ((x >>> (i * 2)) &&& 3) ((y >>> (i * 2)) &&& 3))).sum

/-- `dist_body.rs` `naive::distance`: sum of the per-byte dibit distances
over the zipped bodies. -/
def naive_body_distance (body1 body2 : List Nat) : Nat :=
  (List.zipWith byte_dibit_distance body1 body2).sum

/-- `pseudo_simd_64.rs` `sub_distance`: the 64-bit pseudo-SIMD distance of
two 8-byte body slices, transcribed on `Nat` with every `Wrapping<u64>`
addition, subtraction, shift and multiplication reduced `% 2^64`. -/
def sub_distance_64 (x y : Nat) : Nat :=
  let z := x ^^^ y
  let ta := y &&& 0x5555555555555555
  let tb := x &&& 0x5555555555555555
  let ta := ((ta <<< 1) % 2 ^ 64 + ta) % 2 ^ 64
  let tb := (0xaaaaaaaaaaaaaaaa + 2 ^ 64 - tb) % 2 ^ 64
  let ta := ta ^^^ x
  let tb := tb ^^^ x
  let sa := ta &&& z
  let tb := tb &&& z
  let ta := sa >>> 2
  let sa := sa &&& 0x3333333333333333
  let tb := tb >>> 1
  let ta := ta &&& 0x3333333333333333
  let tb := ((tb <<< 1) % 2 ^ 64 + tb) % 2 ^ 64
  let sa := (sa + ta) % 2 ^ 64
  let sb := tb &&& z
  let tb := sb >>> 2
  let sb := sb &&& 0x3333333333333333
  let tb := tb &&& 0x3333333333333333
  let sb := (sb + tb) % 2 ^ 64
  let s := (sa + sb) % 2 ^ 64
  let t := s >>> 4
  let s := s &&& 0x0f0f0f0f0f0f0f0f
  let t := t &&& 0x0f0f0f0f0f0f0f0f
  let s := (s + t) % 2 ^ 64
  ((s * 0x0101010101010101) % 2 ^ 64) >>> 56

/-- `u64::from_ne_bytes` on a little-endian slice: the first byte is the
least significant. -/
def word256 (l : List Nat) : Nat := l.foldr (fun b acc => b + 256 * acc) 0

/-- `chunks_exact(8)` of a byte sequence. -/
def chunks8 : List Nat → List (List Nat)
  | a :: b :: c :: d :: e :: f :: g :: h :: rest =>
    [a, b, c, d, e, f, g, h] :: chunks8 rest
  | _ => []

/-- The pseudo-SIMD body distance (`distance_32` / `distance_64`): slice
both bodies into 8-byte words and sum `sub_distance` over the word pairs. -/
def pseudo_simd_body_distance (body1 body2 : List Nat) : Nat :=
  (List.zipWith (fun c1 c2 => sub_distance_64 (word256 c1) (word256 c2))
    (chunks8 body1) (chunks8 body2)).sum

/-- The `0x5` nibble mask pattern of width `n` nibbles. -/
def nib_mask_01 : Nat → Nat
  | 0 => 0
  | n + 1 => 0x5 + 16 * nib_mask_01 n

/-- The `0xa` nibble mask pattern of width `n` nibbles. -/
def nib_mask_10 : Nat → Nat
  | 0 => 0
  | n + 1 => 0xa + 16 * nib_mask_10 n

/-- The `0x3` nibble mask pattern of width `n` nibbles. -/
def nib_mask_0011 : Nat → Nat
  | 0 => 0
  | n + 1 => 0x3 + 16 * nib_mask_0011 n

/-- The `0x0f` byte mask pattern of width `n` bytes. -/
def byte_mask_0f : Nat → Nat
  | 0 => 0
  | n + 1 => 0x0f + 256 * byte_mask_0f n

/-- The B-accumulator of `sub_distance` before its shift
(`((mask_dibit_10 - (x & mask_dibit_01)) ^ x) & z`), at width `n` nibbles. -/
def npre_gb (n x y : Nat) : Nat :=
  ((nib_mask_10 n - (x &&& nib_mask_01 n)) ^^^ x) &&& (x ^^^ y)

/-- The mod-free `sub_distance` pipeline at width `n` nibbles, up to the
4-bit sliced sum (before the byte aggregation and the horizontal sum). -/
def npre (n x y : Nat) : Nat :=
  let z := x ^^^ y
  let sa := ((3 * (y &&& nib_mask_01 n)) ^^^ x) &&& z
  let sb := (3 * (npre_gb n x y >>> 1)) &&& z
  ((sa &&& nib_mask_0011 n) + ((sa >>> 2) &&& nib_mask_0011 n))
    + ((sb &&& nib_mask_0011 n) + ((sb >>> 2) &&& nib_mask_0011 n))

/-- The single-nibble slice of the `sub_distance` pipeline. -/
def nslice (a b : Nat) : Nat :=
  let z := a ^^^ b
  let sa := ((3 * (b &&& 5)) ^^^ a) &&& z
  let gb := ((10 - (a &&& 5)) ^^^ a) &&& z
  let sb := (3 * (gb / 2)) &&& z
  ((sa &&& 3) + ((sa >>> 2) &&& 3)) + ((sb &&& 3) + ((sb >>> 2) &&& 3))

/-- The per-nibble dibit distance sum (two dibits per nibble). -/
def nibble_dd (a b : Nat) : Nat :=
  distance_dibits (a &&& 3) (b &&& 3)
    + distance_dibits ((a >>> 2) &&& 3) ((b >>> 2) &&& 3)

lemma and_mod_pow (u v k : Nat) : (u &&& v) % 2 ^ k = (u % 2 ^ k) &&& (v % 2 ^ k) := by
  apply Nat.eq_of_testBit_eq
  intro i
  simp only [Nat.testBit_mod_two_pow, Nat.testBit_and]
  cases u.testBit i <;> cases v.testBit i <;> cases Decidable.decide (i < k) <;> rfl

lemma xor_mod_pow (u v k : Nat) : (u ^^^ v) % 2 ^ k = (u % 2 ^ k) ^^^ (v % 2 ^ k) := by
  apply Nat.eq_of_testBit_eq
  intro i
  simp only [Nat.testBit_mod_two_pow, Nat.testBit_xor]
  cases u.testBit i <;> cases v.testBit i <;> cases Decidable.decide (i < k) <;> rfl

lemma and_div_pow (u v k : Nat) : (u &&& v) / 2 ^ k = (u / 2 ^ k) &&& (v / 2 ^ k) := by
  rw [← Nat.shiftRight_eq_div_pow, ← Nat.shiftRight_eq_div_pow, ← Nat.shiftRight_eq_div_pow]
  apply Nat.eq_of_testBit_eq
  intro i
  simp [Nat.testBit_shiftRight, Nat.testBit_and]

lemma xor_div_pow (u v k : Nat) : (u ^^^ v) / 2 ^ k = (u / 2 ^ k) ^^^ (v / 2 ^ k) := by
  rw [← Nat.shiftRight_eq_div_pow, ← Nat.shiftRight_eq_div_pow, ← Nat.shiftRight_eq_div_pow]
  apply Nat.eq_of_testBit_eq
  intro i
  simp [Nat.testBit_shiftRight, Nat.testBit_xor]

lemma and_mod16 (u v : Nat) : (u &&& v) % 16 = (u % 16) &&& (v % 16) := by
  have h := and_mod_pow u v 4
  norm_num at h
  exact h

lemma and_div16 (u v : Nat) : (u &&& v) / 16 = (u / 16) &&& (v / 16) := by
  have h := and_div_pow u v 4
  norm_num at h
  exact h

lemma xor_mod16 (u v : Nat) : (u ^^^ v) % 16 = (u % 16) ^^^ (v % 16) := by
  have h := xor_mod_pow u v 4
  norm_num at h
  exact h

lemma xor_div16 (u v : Nat) : (u ^^^ v) / 16 = (u / 16) ^^^ (v / 16) := by
  have h := xor_div_pow u v 4
  norm_num at h
  exact h

lemma digit16 (w c r : Nat) (hm : w % 16 = c) (hd : w / 16 = r) : w = c + 16 * r := by
  omega

lemma split_and16 (a b X Y : Nat) (ha : a < 16) (hb : b < 16) :
    (a + 16 * X) &&& (b + 16 * Y) = (a &&& b) + 16 * (X &&& Y) := by
  apply digit16
  · rw [and_mod16]
    congr 1 <;> omega
  · rw [and_div16]
    congr 1 <;> omega

lemma split_xor16 (a b X Y : Nat) (ha : a < 16) (hb : b < 16) :
    (a + 16 * X) ^^^ (b + 16 * Y) = (a ^^^ b) + 16 * (X ^^^ Y) := by
  apply digit16
  · rw [xor_mod16]
    congr 1 <;> omega
  · rw [xor_div16]
    congr 1 <;> omega

lemma and3_eq_mod (t : Nat) : t &&& 3 = t % 4 := by
  have h : (3 : Nat) = 2 ^ 2 - 1 := by norm_num
  rw [h, Nat.and_pow_two_sub_one_eq_mod]

lemma and15_eq_mod (t : Nat) : t &&& 15 = t % 16 := by
  have h : (15 : Nat) = 2 ^ 4 - 1 := by norm_num
  rw [h, Nat.and_pow_two_sub_one_eq_mod]

lemma split_shift2_mask16 (n s0 sr : Nat) (hs0 : s0 < 16) :
    ((s0 + 16 * sr) >>> 2) &&& nib_mask_0011 (n + 1)
      = ((s0 >>> 2) &&& 3) + 16 * ((sr >>> 2) &&& nib_mask_0011 n) := by
  have hmask : nib_mask_0011 (n + 1) = 3 + 16 * nib_mask_0011 n := rfl
  have hsr2 : sr >>> 2 = sr / 4 := by
    rw [Nat.shiftRight_eq_div_pow]
  have hs02 : s0 >>> 2 = s0 / 4 := by
    rw [Nat.shiftRight_eq_div_pow]
  have hw2 : (s0 + 16 * sr) >>> 2 = s0 / 4 + 4 * sr := by
    rw [Nat.shiftRight_eq_div_pow]
    have h4 : (2 : Nat) ^ 2 = 4 := by norm_num
    rw [h4]
    omega
  rw [hmask, hsr2, hs02, hw2]
  apply digit16
  · rw [and_mod16]
    have h1 : (s0 / 4 + 4 * sr) % 16 = s0 / 4 + 4 * (sr % 4) := by omega
    have h2 : (3 + 16 * nib_mask_0011 n) % 16 = 3 := by omega
    rw [h1, h2, and3_eq_mod, and3_eq_mod]
    omega
  · rw [and_div16]
    have h1 : (s0 / 4 + 4 * sr) / 16 = sr / 4 := by omega
    have h2 : (3 + 16 * nib_mask_0011 n) / 16 = nib_mask_0011 n := by omega
    rw [h1, h2]

lemma xor_lt_16 {u v : Nat} (hu : u < 16) (hv : v < 16) : u ^^^ v < 16 := by
  have h : (16 : Nat) = 2 ^ 4 := by norm_num
  rw [h] at hu hv ⊢
  exact Nat.xor_lt_two_pow hu hv

lemma nib01_le_nib10 : ∀ n, nib_mask_01 n ≤ nib_mask_10 n := by
  intro n
  induction n with
  | zero => exact le_refl 0
  | succ m ih =>
    rw [nib_mask_01, nib_mask_10]
    omega

lemma fact_g_nib : ∀ a < 16, (((10 - (a &&& 5)) ^^^ a) &&& 5) = 0 := by decide

lemma fact_nib_even : ∀ t < 16, t &&& 5 = 0 → t % 2 = 0 ∧ t / 2 ≤ 5 := by decide

lemma fact_nslice : ∀ a < 16, ∀ b < 16,
    nslice a b = nibble_dd a b ∧ nslice a b ≤ 12 := by decide

lemma npre_gb_split (n x y : Nat) :
    npre_gb (n + 1) x y
      = (((10 - (x % 16 &&& 5)) ^^^ (x % 16)) &&& ((x % 16) ^^^ (y % 16)))
        + 16 * npre_gb n (x / 16) (y / 16) := by
  suffices h : ∀ a X b Y, a < 16 → b < 16 →
      npre_gb (n + 1) (a + 16 * X) (b + 16 * Y)
        = (((10 - (a &&& 5)) ^^^ a) &&& (a ^^^ b)) + 16 * npre_gb n X Y by
    have h2 := h (x % 16) (x / 16) (y % 16) (y / 16) (by omega) (by omega)
    rw [Nat.mod_add_div x 16, Nat.mod_add_div y 16] at h2
    exact h2
  intro a X b Y ha hb
  unfold npre_gb
  rw [show nib_mask_01 (n + 1) = 5 + 16 * nib_mask_01 n from rfl,
      show nib_mask_10 (n + 1) = 10 + 16 * nib_mask_10 n from rfl]
  have hb1 : a &&& 5 ≤ 5 := Nat.and_le_right
  have h1 : (a + 16 * X) &&& (5 + 16 * nib_mask_01 n)
      = (a &&& 5) + 16 * (X &&& nib_mask_01 n) :=
    split_and16 _ _ _ _ ha (by norm_num)
  rw [h1]
  have hbr : X &&& nib_mask_01 n ≤ nib_mask_10 n :=
    le_trans Nat.and_le_right (nib01_le_nib10 n)
  have h2 : (10 + 16 * nib_mask_10 n) - ((a &&& 5) + 16 * (X &&& nib_mask_01 n))
      = (10 - (a &&& 5)) + 16 * (nib_mask_10 n - (X &&& nib_mask_01 n)) := by
    omega
  rw [h2]
  have h3 : ((10 - (a &&& 5)) + 16 * (nib_mask_10 n - (X &&& nib_mask_01 n))) ^^^ (a + 16 * X)
      = ((10 - (a &&& 5)) ^^^ a)
        + 16 * ((nib_mask_10 n - (X &&& nib_mask_01 n)) ^^^ X) :=
    split_xor16 _ _ _ _ (by omega) ha
  rw [h3]
  have h4 : (a + 16 * X) ^^^ (b + 16 * Y) = (a ^^^ b) + 16 * (X ^^^ Y) :=
    split_xor16 _ _ _ _ ha hb
  rw [h4]
  exact split_and16 _ _ _ _ (xor_lt_16 (by omega) ha) (xor_lt_16 ha hb)

lemma npre_gb_mask : ∀ n x y, x < 16 ^ n → y < 16 ^ n →
    npre_gb n x y &&& nib_mask_01 n = 0 := by
  intro n
  induction n with
  | zero =>
    intro x y hx hy
    have hx0 : x = 0 := by omega
    have hy0 : y = 0 := by omega
    subst hx0; subst hy0
    decide
  | succ m ih =>
    intro x y hx hy
    have hpow : (16 : Nat) ^ (m + 1) = 16 * 16 ^ m := by ring
    rw [npre_gb_split m x y,
        show nib_mask_01 (m + 1) = 5 + 16 * nib_mask_01 m from rfl]
    have hzlt : (x % 16) ^^^ (y % 16) < 16 := xor_lt_16 (by omega) (by omega)
    have hg1lt : (((10 - (x % 16 &&& 5)) ^^^ (x % 16)) &&& ((x % 16) ^^^ (y % 16))) < 16 :=
      lt_of_le_of_lt Nat.and_le_right hzlt
    rw [split_and16 _ _ _ _ hg1lt (by norm_num)]
    have hg1five : (((10 - (x % 16 &&& 5)) ^^^ (x % 16)) &&& ((x % 16) ^^^ (y % 16))) &&& 5
        = 0 := by
      rw [Nat.land_assoc, Nat.land_comm ((x % 16) ^^^ (y % 16)) 5, ← Nat.land_assoc,
          fact_g_nib (x % 16) (by omega)]
      exact Nat.zero_and _
    rw [hg1five, ih (x / 16) (y / 16) (by omega) (by omega)]

lemma npre_gb_even (n x y : Nat) (hx : x < 16 ^ n) (hy : y < 16 ^ n) :
    npre_gb n x y % 2 = 0 := by
  cases n with
  | zero =>
    have hx0 : x = 0 := by omega
    have hy0 : y = 0 := by omega
    subst hx0; subst hy0
    decide
  | succ m =>
    have hmask := npre_gb_mask (m + 1) x y hx hy
    rw [show nib_mask_01 (m + 1) = 5 + 16 * nib_mask_01 m from rfl] at hmask
    have hone : (5 + 16 * nib_mask_01 m) &&& 1 = 1 := by
      rw [Nat.and_one_is_mod]
      omega
    have h2 : (npre_gb (m + 1) x y &&& (5 + 16 * nib_mask_01 m)) &&& 1
        = npre_gb (m + 1) x y &&& 1 := by
      rw [Nat.land_assoc, hone]
    rw [← Nat.and_one_is_mod, ← h2, hmask]
    exact Nat.zero_and 1

lemma npre_split (n x y : Nat) (hx : x < 16 ^ (n + 1)) (hy : y < 16 ^ (n + 1)) :
    npre (n + 1) x y = nslice (x % 16) (y % 16) + 16 * npre n (x / 16) (y / 16) := by
  have hpow : (16 : Nat) ^ (n + 1) = 16 * 16 ^ n := by ring
  suffices h : ∀ a X b Y, a < 16 → b < 16 → X < 16 ^ n → Y < 16 ^ n →
      npre (n + 1) (a + 16 * X) (b + 16 * Y)
        = nslice a b + 16 * npre n X Y by
    have h2 := h (x % 16) (x / 16) (y % 16) (y / 16) (by omega) (by omega)
      (by omega) (by omega)
    rw [Nat.mod_add_div x 16, Nat.mod_add_div y 16] at h2
    exact h2
  intro a X b Y ha hb hX hY
  have hz : (a + 16 * X) ^^^ (b + 16 * Y) = (a ^^^ b) + 16 * (X ^^^ Y) :=
    split_xor16 _ _ _ _ ha hb
  have hzlt : a ^^^ b < 16 := xor_lt_16 ha hb
  have hb5 : b &&& 5 ≤ 5 := Nat.and_le_right
  have ha5 : a &&& 5 ≤ 5 := Nat.and_le_right
  -- the A path
  have h1 : (b + 16 * Y) &&& nib_mask_01 (n + 1)
      = (b &&& 5) + 16 * (Y &&& nib_mask_01 n) := by
    rw [show nib_mask_01 (n + 1) = 5 + 16 * nib_mask_01 n from rfl]
    exact split_and16 _ _ _ _ hb (by norm_num)
  have h2 : 3 * ((b &&& 5) + 16 * (Y &&& nib_mask_01 n))
      = 3 * (b &&& 5) + 16 * (3 * (Y &&& nib_mask_01 n)) := by ring
  have h3 : (3 * (b &&& 5) + 16 * (3 * (Y &&& nib_mask_01 n))) ^^^ (a + 16 * X)
      = ((3 * (b &&& 5)) ^^^ a) + 16 * ((3 * (Y &&& nib_mask_01 n)) ^^^ X) :=
    split_xor16 _ _ _ _ (by omega) ha
  have h4 : (((3 * (b &&& 5)) ^^^ a) + 16 * ((3 * (Y &&& nib_mask_01 n)) ^^^ X))
        &&& ((a ^^^ b) + 16 * (X ^^^ Y))
      = (((3 * (b &&& 5)) ^^^ a) &&& (a ^^^ b))
        + 16 * (((3 * (Y &&& nib_mask_01 n)) ^^^ X) &&& (X ^^^ Y)) :=
    split_and16 _ _ _ _ (xor_lt_16 (by omega) ha) hzlt
  -- the B path
  have hg := npre_gb_split n (a + 16 * X) (b + 16 * Y)
  have hma : (a + 16 * X) % 16 = a := by omega
  have hmb : (b + 16 * Y) % 16 = b := by omega
  have hda : (a + 16 * X) / 16 = X := by omega
  have hdb : (b + 16 * Y) / 16 = Y := by omega
  rw [hma, hmb, hda, hdb] at hg
  have hg1lt : (((10 - (a &&& 5)) ^^^ a) &&& (a ^^^ b)) < 16 :=
    lt_of_le_of_lt Nat.and_le_right hzlt
  have hg1five : (((10 - (a &&& 5)) ^^^ a) &&& (a ^^^ b)) &&& 5 = 0 := by
    rw [Nat.land_assoc, Nat.land_comm (a ^^^ b) 5, ← Nat.land_assoc, fact_g_nib a ha]
    exact Nat.zero_and _
  have hg1even := fact_nib_even _ hg1lt hg1five
  have hgNe : npre_gb n X Y % 2 = 0 := npre_gb_even n X Y hX hY
  have h5 : ((((10 - (a &&& 5)) ^^^ a) &&& (a ^^^ b)) + 16 * npre_gb n X Y) >>> 1
      = (((10 - (a &&& 5)) ^^^ a) &&& (a ^^^ b)) / 2 + 16 * (npre_gb n X Y >>> 1) := by
    rw [Nat.shiftRight_eq_div_pow, Nat.shiftRight_eq_div_pow]
    have h2p : (2 : Nat) ^ 1 = 2 := by norm_num
    rw [h2p]
    omega
  have h6 : 3 * ((((10 - (a &&& 5)) ^^^ a) &&& (a ^^^ b)) / 2 + 16 * (npre_gb n X Y >>> 1))
      = 3 * ((((10 - (a &&& 5)) ^^^ a) &&& (a ^^^ b)) / 2)
        + 16 * (3 * (npre_gb n X Y >>> 1)) := by ring
  have h7 : (3 * ((((10 - (a &&& 5)) ^^^ a) &&& (a ^^^ b)) / 2)
        + 16 * (3 * (npre_gb n X Y >>> 1))) &&& ((a ^^^ b) + 16 * (X ^^^ Y))
      = ((3 * ((((10 - (a &&& 5)) ^^^ a) &&& (a ^^^ b)) / 2)) &&& (a ^^^ b))
        + 16 * ((3 * (npre_gb n X Y >>> 1)) &&& (X ^^^ Y)) :=
    split_and16 _ _ _ _ (by omega) hzlt
  -- the packing stages
  have hsa1lt : (((3 * (b &&& 5)) ^^^ a) &&& (a ^^^ b)) < 16 :=
    lt_of_le_of_lt Nat.and_le_right hzlt
  have hsb1lt : ((3 * ((((10 - (a &&& 5)) ^^^ a) &&& (a ^^^ b)) / 2)) &&& (a ^^^ b)) < 16 :=
    lt_of_le_of_lt Nat.and_le_right hzlt
  have hP1 : ((((3 * (b &&& 5)) ^^^ a) &&& (a ^^^ b))
        + 16 * (((3 * (Y &&& nib_mask_01 n)) ^^^ X) &&& (X ^^^ Y)))
        &&& nib_mask_0011 (n + 1)
      = ((((3 * (b &&& 5)) ^^^ a) &&& (a ^^^ b)) &&& 3)
        + 16 * ((((3 * (Y &&& nib_mask_01 n)) ^^^ X) &&& (X ^^^ Y))
          &&& nib_mask_0011 n) := by
    rw [show nib_mask_0011 (n + 1) = 3 + 16 * nib_mask_0011 n from rfl]
    exact split_and16 _ _ _ _ hsa1lt (by norm_num)
  have hP2 := split_shift2_mask16 n _ (((3 * (Y &&& nib_mask_01 n)) ^^^ X) &&& (X ^^^ Y)) hsa1lt
  have hP3 : (((3 * ((((10 - (a &&& 5)) ^^^ a) &&& (a ^^^ b)) / 2)) &&& (a ^^^ b))
        + 16 * ((3 * (npre_gb n X Y >>> 1)) &&& (X ^^^ Y)))
        &&& nib_mask_0011 (n + 1)
      = (((3 * ((((10 - (a &&& 5)) ^^^ a) &&& (a ^^^ b)) / 2)) &&& (a ^^^ b)) &&& 3)
        + 16 * (((3 * (npre_gb n X Y >>> 1)) &&& (X ^^^ Y)) &&& nib_mask_0011 n) := by
    rw [show nib_mask_0011 (n + 1) = 3 + 16 * nib_mask_0011 n from rfl]
    exact split_and16 _ _ _ _ hsb1lt (by norm_num)
  have hP4 := split_shift2_mask16 n _ ((3 * (npre_gb n X Y >>> 1)) &&& (X ^^^ Y)) hsb1lt
  unfold npre nslice
  dsimp only
  rw [h1, h2, h3, hg, h5, h6, hz, h4, h7, hP1, hP2, hP3, hP4]
  ring

/-- A number from its little-endian nibble list. -/
def word16 (l : List Nat) : Nat := l.foldr (fun d acc => d + 16 * acc) 0

lemma word16_lt : ∀ l : List Nat, (∀ d ∈ l, d < 16) → word16 l < 16 ^ l.length := by
  intro l
  induction l with
  | nil => intro _; norm_num [word16]
  | cons a t ih =>
    intro h
    have ha : a < 16 := h a (by simp)
    have ht := ih (fun d hd => h d (by simp [hd]))
    have hp : (16 : Nat) ^ (a :: t).length = 16 * 16 ^ t.length := by
      rw [List.length_cons]; ring
    have hw : word16 (a :: t) = a + 16 * word16 t := rfl
    omega

lemma word256_lt : ∀ l : List Nat, (∀ d ∈ l, d < 256) → word256 l < 256 ^ l.length := by
  intro l
  induction l with
  | nil => intro _; norm_num [word256]
  | cons a t ih =>
    intro h
    have ha : a < 256 := h a (by simp)
    have ht := ih (fun d hd => h d (by simp [hd]))
    have hp : (256 : Nat) ^ (a :: t).length = 256 * 256 ^ t.length := by
      rw [List.length_cons]; ring
    have hw : word256 (a :: t) = a + 256 * word256 t := rfl
    omega

lemma npre_list : ∀ (ns ms : List Nat), ns.length = ms.length →
    (∀ d ∈ ns, d < 16) → (∀ d ∈ ms, d < 16) →
    npre ns.length (word16 ns) (word16 ms) = word16 (List.zipWith nslice ns ms) := by
  intro ns
  induction ns with
  | nil =>
    intro ms hlen _ _
    have hms : ms = [] := List.eq_nil_of_length_eq_zero hlen.symm
    subst hms
    decide
  | cons a t ih =>
    intro ms hlen h1 h2
    rcases ms with _ | ⟨b, u⟩
    · exfalso; simp at hlen
    have ha : a < 16 := h1 a (by simp)
    have hb : b < 16 := h2 b (by simp)
    have hwt := word16_lt t (fun d hd => h1 d (by simp [hd]))
    have hwu := word16_lt u (fun d hd => h2 d (by simp [hd]))
    have hlu : t.length = u.length := by simpa using hlen
    have hw1 : word16 (a :: t) = a + 16 * word16 t := rfl
    have hw2 : word16 (b :: u) = b + 16 * word16 u := rfl
    have hp : (16 : Nat) ^ (t.length + 1) = 16 * 16 ^ t.length := by ring
    have hlt1 : word16 (a :: t) < 16 ^ (t.length + 1) := by omega
    have hlt2 : word16 (b :: u) < 16 ^ (t.length + 1) := by
      rw [hlu] at hp ⊢
      omega
    have hm1 : word16 (a :: t) % 16 = a := by omega
    have hm2 : word16 (b :: u) % 16 = b := by omega
    have hd1 : word16 (a :: t) / 16 = word16 t := by omega
    have hd2 : word16 (b :: u) / 16 = word16 u := by omega
    rw [show (a :: t).length = t.length + 1 from rfl,
        npre_split t.length _ _ hlt1 hlt2, hm1, hm2, hd1, hd2,
        show t.length = t.length from rfl]
    rw [hlu] at hwt hlt1 hp
    rw [ih u hlu (fun d hd => h1 d (by simp [hd])) (fun d hd => h2 d (by simp [hd]))]
    rfl

lemma wrap_mul3 (w : Nat) (hw : w ≤ 0x5555555555555555) :
    ((w <<< 1) % 2 ^ 64 + w) % 2 ^ 64 = 3 * w := by
  rw [Nat.shiftLeft_eq]
  have h2 : (2 : Nat) ^ 1 = 2 := by norm_num
  rw [h2]
  omega

lemma wrap_sub (t : Nat) (ht : t ≤ 0xaaaaaaaaaaaaaaaa) :
    (0xaaaaaaaaaaaaaaaa + 2 ^ 64 - t) % 2 ^ 64 = 0xaaaaaaaaaaaaaaaa - t := by
  omega

lemma and_m01_zero_le (t : Nat) (ht : t < 2 ^ 64)
    (h : t &&& 0x5555555555555555 = 0) : t ≤ 0xaaaaaaaaaaaaaaaa := by
  have horc : (0x5555555555555555 : Nat) ||| 0xaaaaaaaaaaaaaaaa = 2 ^ 64 - 1 := by decide
  have h1 : t = t &&& (2 ^ 64 - 1) := by
    rw [Nat.and_pow_two_sub_one_eq_mod]
    omega
  calc t = t &&& (2 ^ 64 - 1) := h1
    _ = t &&& (0x5555555555555555 ||| 0xaaaaaaaaaaaaaaaa) := by rw [horc]
    _ = (t &&& 0x5555555555555555) ||| (t &&& 0xaaaaaaaaaaaaaaaa) :=
      Nat.and_or_distrib_left t 0x5555555555555555 0xaaaaaaaaaaaaaaaa
    _ = t &&& 0xaaaaaaaaaaaaaaaa := by rw [h]; exact Nat.zero_or _
    _ ≤ 0xaaaaaaaaaaaaaaaa := Nat.and_le_right

lemma nib_mask_01_16 : nib_mask_01 16 = 0x5555555555555555 := by decide

lemma nib_mask_10_16 : nib_mask_10 16 = 0xaaaaaaaaaaaaaaaa := by decide

lemma nib_mask_0011_16 : nib_mask_0011 16 = 0x3333333333333333 := by decide

lemma pow16_16 : (16 : Nat) ^ 16 = 2 ^ 64 := by norm_num

lemma xor_lt_64 {u v : Nat} (hu : u < 2 ^ 64) (hv : v < 2 ^ 64) : u ^^^ v < 2 ^ 64 :=
  Nat.xor_lt_two_pow hu hv

lemma sub_distance_64_eq (x y : Nat) (hx : x < 2 ^ 64) (hy : y < 2 ^ 64) :
    sub_distance_64 x y =
      ((((npre 16 x y &&& 0x0f0f0f0f0f0f0f0f)
        + ((npre 16 x y >>> 4) &&& 0x0f0f0f0f0f0f0f0f)) * 0x0101010101010101)
        % 2 ^ 64) >>> 56 := by
  have hyM : y &&& 0x5555555555555555 ≤ 0x5555555555555555 := Nat.and_le_right
  have hxM : x &&& 0x5555555555555555 ≤ 0x5555555555555555 := Nat.and_le_right
  have hGb0 : npre_gb 16 x y &&& nib_mask_01 16 = 0 :=
    npre_gb_mask 16 x y (by rw [pow16_16]; exact hx) (by rw [pow16_16]; exact hy)
  unfold sub_distance_64 npre npre_gb
  dsimp only
  rw [nib_mask_01_16, nib_mask_10_16, nib_mask_0011_16]
  unfold npre_gb at hGb0
  rw [nib_mask_01_16, nib_mask_10_16] at hGb0
  rw [wrap_mul3 _ hyM, wrap_sub _ (le_trans hxM (by norm_num))]
  set G := ((0xaaaaaaaaaaaaaaaa - (x &&& 0x5555555555555555)) ^^^ x) &&& (x ^^^ y) with hG
  have hGlt : G < 2 ^ 64 :=
    lt_of_le_of_lt Nat.and_le_right (xor_lt_64 hx hy)
  have hGle : G ≤ 0xaaaaaaaaaaaaaaaa := and_m01_zero_le G hGlt hGb0
  have hG1 : G >>> 1 ≤ 0x5555555555555555 := by
    rw [Nat.shiftRight_eq_div_pow]
    have h2 : (2 : Nat) ^ 1 = 2 := by norm_num
    rw [h2]
    omega
  rw [wrap_mul3 _ hG1]
  set SA := ((3 * (y &&& 0x5555555555555555)) ^^^ x) &&& (x ^^^ y) with hSA
  set SB := (3 * (G >>> 1)) &&& (x ^^^ y) with hSB
  have hsa4 : ((SA &&& 0x3333333333333333) + ((SA >>> 2) &&& 0x3333333333333333)) % 2 ^ 64
      = (SA &&& 0x3333333333333333) + ((SA >>> 2) &&& 0x3333333333333333) := by
    have h1 : SA &&& 0x3333333333333333 ≤ 0x3333333333333333 := Nat.and_le_right
    have h2 : (SA >>> 2) &&& 0x3333333333333333 ≤ 0x3333333333333333 := Nat.and_le_right
    omega
  have hsb4 : ((SB &&& 0x3333333333333333) + ((SB >>> 2) &&& 0x3333333333333333)) % 2 ^ 64
      = (SB &&& 0x3333333333333333) + ((SB >>> 2) &&& 0x3333333333333333) := by
    have h1 : SB &&& 0x3333333333333333 ≤ 0x3333333333333333 := Nat.and_le_right
    have h2 : (SB >>> 2) &&& 0x3333333333333333 ≤ 0x3333333333333333 := Nat.and_le_right
    omega
  rw [hsa4, hsb4]
  set A4 := (SA &&& 0x3333333333333333) + ((SA >>> 2) &&& 0x3333333333333333) with hA4
  set B4 := (SB &&& 0x3333333333333333) + ((SB >>> 2) &&& 0x3333333333333333) with hB4
  have hs : (A4 + B4) % 2 ^ 64 = A4 + B4 := by
    have h1 : SA &&& 0x3333333333333333 ≤ 0x3333333333333333 := Nat.and_le_right
    have h2 : (SA >>> 2) &&& 0x3333333333333333 ≤ 0x3333333333333333 := Nat.and_le_right
    have h3 : SB &&& 0x3333333333333333 ≤ 0x3333333333333333 := Nat.and_le_right
    have h4 : (SB >>> 2) &&& 0x3333333333333333 ≤ 0x3333333333333333 := Nat.and_le_right
    omega
  rw [hs]
  have hfin : (((A4 + B4) &&& 0x0f0f0f0f0f0f0f0f)
        + (((A4 + B4) >>> 4) &&& 0x0f0f0f0f0f0f0f0f)) % 2 ^ 64
      = ((A4 + B4) &&& 0x0f0f0f0f0f0f0f0f)
        + (((A4 + B4) >>> 4) &&& 0x0f0f0f0f0f0f0f0f) := by
    have h1 : (A4 + B4) &&& 0x0f0f0f0f0f0f0f0f ≤ 0x0f0f0f0f0f0f0f0f := Nat.and_le_right
    have h2 : ((A4 + B4) >>> 4) &&& 0x0f0f0f0f0f0f0f0f ≤ 0x0f0f0f0f0f0f0f0f :=
      Nat.and_le_right
    omega
  rw [hfin]

lemma and_mod256 (u v : Nat) : (u &&& v) % 256 = (u % 256) &&& (v % 256) := by
  have h := and_mod_pow u v 8
  norm_num at h
  exact h

lemma and_div256 (u v : Nat) : (u &&& v) / 256 = (u / 256) &&& (v / 256) := by
  have h := and_div_pow u v 8
  norm_num at h
  exact h

lemma digit256 (w c r : Nat) (hm : w % 256 = c) (hd : w / 256 = r) : w = c + 256 * r := by
  omega

lemma split_and256 (a b X Y : Nat) (ha : a < 256) (hb : b < 256) :
    (a + 256 * X) &&& (b + 256 * Y) = (a &&& b) + 256 * (X &&& Y) := by
  apply digit256
  · rw [and_mod256]
    congr 1 <;> omega
  · rw [and_div256]
    congr 1 <;> omega

/-- The per-byte packed value: low nibble from `.1`, high nibble from `.2`. -/
def pair_word (ps : List (Nat × Nat)) : Nat :=
  ps.foldr (fun p acc => p.1 + 16 * p.2 + 256 * acc) 0

lemma pack_low : ∀ ps : List (Nat × Nat), (∀ p ∈ ps, p.1 < 16 ∧ p.2 < 16) →
    pair_word ps &&& byte_mask_0f ps.length = word256 (ps.map Prod.fst) := by
  intro ps
  induction ps with
  | nil => intro _; decide
  | cons p t ih =>
    intro h
    have hp := h p (by simp)
    have hw : pair_word (p :: t) = (p.1 + 16 * p.2) + 256 * pair_word t := rfl
    have hm : byte_mask_0f (p :: t).length = 15 + 256 * byte_mask_0f t.length := rfl
    rw [hw, hm, split_and256 _ _ _ _ (by omega) (by norm_num)]
    have hlow : (p.1 + 16 * p.2) &&& 15 = p.1 := by
      rw [and15_eq_mod]
      omega
    rw [hlow, ih (fun q hq => h q (by simp [hq]))]
    rfl

lemma pack_high : ∀ ps : List (Nat × Nat), (∀ p ∈ ps, p.1 < 16 ∧ p.2 < 16) →
    (pair_word ps >>> 4) &&& byte_mask_0f ps.length = word256 (ps.map Prod.snd) := by
  intro ps
  induction ps with
  | nil => intro _; decide
  | cons p t ih =>
    intro h
    have hp := h p (by simp)
    have hw : pair_word (p :: t) = (p.1 + 16 * p.2) + 256 * pair_word t := rfl
    have hm : byte_mask_0f (p :: t).length = 15 + 256 * byte_mask_0f t.length := rfl
    have hshift : pair_word (p :: t) >>> 4
        = (p.2 + 16 * (pair_word t % 16)) + 256 * (pair_word t / 16) := by
      rw [hw, Nat.shiftRight_eq_div_pow]
      have h16 : (2 : Nat) ^ 4 = 16 := by norm_num
      rw [h16]
      omega
    rw [hshift, hm, split_and256 _ _ _ _ (by omega) (by norm_num)]
    have hlow : (p.2 + 16 * (pair_word t % 16)) &&& 15 = p.2 := by
      rw [and15_eq_mod]
      omega
    have hiht : (pair_word t >>> 4) &&& byte_mask_0f t.length
        = word256 (t.map Prod.snd) := ih (fun q hq => h q (by simp [hq]))
    rw [Nat.shiftRight_eq_div_pow] at hiht
    have h16 : (2 : Nat) ^ 4 = 16 := by norm_num
    rw [h16] at hiht
    rw [hlow, hiht]
    rfl

lemma word256_add : ∀ xs ys : List Nat, xs.length = ys.length →
    word256 xs + word256 ys = word256 (List.zipWith (· + ·) xs ys) := by
  intro xs
  induction xs with
  | nil =>
    intro ys h
    have hys : ys = [] := List.eq_nil_of_length_eq_zero h.symm
    subst hys
    rfl
  | cons a t ih =>
    intro ys h
    rcases ys with _ | ⟨b, u⟩
    · exfalso; simp at h
    have hw1 : word256 (a :: t) = a + 256 * word256 t := rfl
    have hw2 : word256 (b :: u) = b + 256 * word256 u := rfl
    have hz : word256 (List.zipWith (· + ·) (a :: t) (b :: u))
        = (a + b) + 256 * word256 (List.zipWith (· + ·) t u) := rfl
    rw [hw1, hw2, hz, ← ih u (by simpa using h)]
    ring

/-- The little-endian nibble list of a byte list. -/
def nibbles_of_bytes : List Nat → List Nat
  | [] => []
  | b :: t => b % 16 :: b / 16 :: nibbles_of_bytes t

lemma nibbles_len : ∀ l : List Nat, (nibbles_of_bytes l).length = 2 * l.length := by
  intro l
  induction l with
  | nil => rfl
  | cons b t ih =>
    rw [nibbles_of_bytes, List.length_cons, List.length_cons, ih, List.length_cons]
    ring

lemma nibbles_lt : ∀ l : List Nat, (∀ b ∈ l, b < 256) →
    ∀ d ∈ nibbles_of_bytes l, d < 16 := by
  intro l
  induction l with
  | nil => intro _ d hd; simp [nibbles_of_bytes] at hd
  | cons b t ih =>
    intro h d hd
    have hb : b < 256 := h b (by simp)
    rw [nibbles_of_bytes] at hd
    simp only [List.mem_cons] at hd
    rcases hd with rfl | rfl | hd
    · omega
    · omega
    · exact ih (fun q hq => h q (by simp [hq])) d hd

lemma word16_nibbles : ∀ l : List Nat, word16 (nibbles_of_bytes l) = word256 l := by
  intro l
  induction l with
  | nil => rfl
  | cons b t ih =>
    have h1 : word16 (nibbles_of_bytes (b :: t))
        = b % 16 + 16 * (b / 16 + 16 * word16 (nibbles_of_bytes t)) := rfl
    have h2 : word256 (b :: t) = b + 256 * word256 t := rfl
    rw [h1, h2, ih]
    omega

/-- The per-byte pair of nibble slice values of two zipped byte lists. -/
def nslice_pairs (b1 b2 : List Nat) : List (Nat × Nat) :=
  List.zipWith (fun u v => (nslice (u % 16) (v % 16), nslice (u / 16) (v / 16))) b1 b2

lemma word16_zip_nslice : ∀ b1 b2 : List Nat,
    word16 (List.zipWith nslice (nibbles_of_bytes b1) (nibbles_of_bytes b2))
      = pair_word (nslice_pairs b1 b2) := by
  intro b1
  induction b1 with
  | nil => intro b2; rfl
  | cons u t ih =>
    intro b2
    rcases b2 with _ | ⟨v, s⟩
    · rfl
    have h1 : word16 (List.zipWith nslice (nibbles_of_bytes (u :: t))
          (nibbles_of_bytes (v :: s)))
        = nslice (u % 16) (v % 16) + 16 * (nslice (u / 16) (v / 16)
          + 16 * word16 (List.zipWith nslice (nibbles_of_bytes t) (nibbles_of_bytes s))) :=
      rfl
    have h2 : pair_word (nslice_pairs (u :: t) (v :: s))
        = nslice (u % 16) (v % 16) + 16 * nslice (u / 16) (v / 16)
          + 256 * pair_word (nslice_pairs t s) := rfl
    rw [h1, h2, ih s]
    ring

lemma horizontal_core (low S H : Nat) (hlow : low < 72057594037927936) (hS : S ≤ 192) :
    ((low + S * 72057594037927936) + 18446744073709551616 * H) % 18446744073709551616
      / 72057594037927936 = S := by
  omega

lemma horizontal_sum8 (d0 d1 d2 d3 d4 d5 d6 d7 : Nat)
    (h0 : d0 ≤ 24) (h1 : d1 ≤ 24) (h2 : d2 ≤ 24) (h3 : d3 ≤ 24)
    (h4 : d4 ≤ 24) (h5 : d5 ≤ 24) (h6 : d6 ≤ 24) (h7 : d7 ≤ 24) :
    ((word256 [d0, d1, d2, d3, d4, d5, d6, d7] * 0x0101010101010101) % 2 ^ 64) >>> 56
      = d0 + d1 + d2 + d3 + d4 + d5 + d6 + d7 := by
  have hw : word256 [d0, d1, d2, d3, d4, d5, d6, d7]
      = d0 + 256 * (d1 + 256 * (d2 + 256 * (d3 + 256 * (d4 + 256 * (d5
        + 256 * (d6 + 256 * (d7 + 256 * 0))))))) := rfl
  have hexp : (d0 + 256 * (d1 + 256 * (d2 + 256 * (d3 + 256 * (d4 + 256 * (d5
        + 256 * (d6 + 256 * (d7 + 256 * 0)))))))) * 0x0101010101010101
      = ((d0 + (d0 + d1) * 256 + (d0 + d1 + d2) * 65536
          + (d0 + d1 + d2 + d3) * 16777216
          + (d0 + d1 + d2 + d3 + d4) * 4294967296
          + (d0 + d1 + d2 + d3 + d4 + d5) * 1099511627776
          + (d0 + d1 + d2 + d3 + d4 + d5 + d6) * 281474976710656)
          + (d0 + d1 + d2 + d3 + d4 + d5 + d6 + d7) * 72057594037927936)
        + 18446744073709551616 * ((d1 + d2 + d3 + d4 + d5 + d6 + d7)
          + (d2 + d3 + d4 + d5 + d6 + d7) * 256
          + (d3 + d4 + d5 + d6 + d7) * 65536
          + (d4 + d5 + d6 + d7) * 16777216
          + (d5 + d6 + d7) * 4294967296
          + (d6 + d7) * 1099511627776
          + d7 * 281474976710656) := by ring
  have h2p64 : (2 : Nat) ^ 64 = 18446744073709551616 := by norm_num
  have h2p56 : (2 : Nat) ^ 56 = 72057594037927936 := by norm_num
  rw [hw, Nat.shiftRight_eq_div_pow, hexp, h2p64, h2p56]
  exact horizontal_core _ _ _ (by omega) (by omega)

lemma byte_dibit_split (u v : Nat) :
    byte_dibit_distance u v = nibble_dd (u % 16) (v % 16) + nibble_dd (u / 16) (v / 16) := by
  unfold byte_dibit_distance nibble_dd
  have hr : List.range 4 = [0, 1, 2, 3] := rfl
  rw [hr]
  simp only [List.map_cons, List.map_nil, List.sum_cons, List.sum_nil,
    Nat.shiftRight_eq_div_pow, and3_eq_mod]
  norm_num
  have e1 : u % 16 / 4 % 4 = u / 4 % 4 := by omega
  have e3 : u / 16 / 4 % 4 = u / 64 % 4 := by omega
  have f1 : v % 16 / 4 % 4 = v / 4 % 4 := by omega
  have f3 : v / 16 / 4 % 4 = v / 64 % 4 := by omega
  rw [e1, e3, f1, f3]
  ring

lemma nslice_pairs_bound : ∀ c1 c2 : List Nat, (∀ d ∈ c1, d < 256) → (∀ d ∈ c2, d < 256) →
    ∀ p ∈ nslice_pairs c1 c2, p.1 < 16 ∧ p.2 < 16 := by
  intro c1
  induction c1 with
  | nil => intro c2 _ _ p hp; simp [nslice_pairs] at hp
  | cons u t ih =>
    intro c2 h1 h2 p hp
    rcases c2 with _ | ⟨v, s⟩
    · simp [nslice_pairs] at hp
    have hu : u < 256 := h1 u (by simp)
    have hv : v < 256 := h2 v (by simp)
    rw [show nslice_pairs (u :: t) (v :: s)
        = (nslice (u % 16) (v % 16), nslice (u / 16) (v / 16)) :: nslice_pairs t s
      from rfl] at hp
    simp only [List.mem_cons] at hp
    rcases hp with rfl | hp
    · constructor
      · have := (fact_nslice (u % 16) (by omega) (v % 16) (by omega)).2
        omega
      · have := (fact_nslice (u / 16) (by omega) (v / 16) (by omega)).2
        omega
    · exact ih s (fun d hd => h1 d (by simp [hd])) (fun d hd => h2 d (by simp [hd])) p hp

lemma byte_dibit_nslice (u v : Nat) (hu : u < 256) (hv : v < 256) :
    byte_dibit_distance u v = nslice (u % 16) (v % 16) + nslice (u / 16) (v / 16) := by
  rw [byte_dibit_split, (fact_nslice (u % 16) (by omega) (v % 16) (by omega)).1,
      (fact_nslice (u / 16) (by omega) (v / 16) (by omega)).1]

lemma sub_distance_64_chunk (c1 c2 : List Nat) (h1 : c1.length = 8) (h2 : c2.length = 8)
    (hb1 : ∀ d ∈ c1, d < 256) (hb2 : ∀ d ∈ c2, d < 256) :
    sub_distance_64 (word256 c1) (word256 c2)
      = (List.zipWith byte_dibit_distance c1 c2).sum := by
  have h28 : (256 : Nat) ^ 8 = 2 ^ 64 := by norm_num
  have hx : word256 c1 < 2 ^ 64 := by
    have := word256_lt c1 hb1
    rw [h1, h28] at this
    exact this
  have hy : word256 c2 < 2 ^ 64 := by
    have := word256_lt c2 hb2
    rw [h2, h28] at this
    exact this
  rw [sub_distance_64_eq _ _ hx hy]
  have hnl : (nibbles_of_bytes c1).length = 16 := by rw [nibbles_len, h1]
  have hnl2 : (nibbles_of_bytes c2).length = 16 := by rw [nibbles_len, h2]
  have hnpre : npre 16 (word256 c1) (word256 c2) = pair_word (nslice_pairs c1 c2) := by
    rw [← word16_nibbles c1, ← word16_nibbles c2, ← hnl,
        npre_list (nibbles_of_bytes c1) (nibbles_of_bytes c2) (by rw [hnl, hnl2])
          (nibbles_lt c1 hb1) (nibbles_lt c2 hb2)]
    exact word16_zip_nslice c1 c2
  rw [hnpre]
  have hpslen : (nslice_pairs c1 c2).length = 8 := by
    simp [nslice_pairs, h1, h2]
  have hm0f : (0x0f0f0f0f0f0f0f0f : Nat) = byte_mask_0f (nslice_pairs c1 c2).length := by
    rw [hpslen]
    decide
  rw [hm0f]
  have hpb := nslice_pairs_bound c1 c2 hb1 hb2
  rw [pack_low _ hpb, pack_high _ hpb,
      word256_add _ _ (by simp)]
  rcases c1 with _ | ⟨a0, _ | ⟨a1, _ | ⟨a2, _ | ⟨a3, _ | ⟨a4, _ | ⟨a5, _ | ⟨a6, _ | ⟨a7, r⟩⟩⟩⟩⟩⟩⟩⟩ <;>
    try (exfalso; simp only [List.length_nil, List.length_cons] at h1; omega)
  rcases c2 with _ | ⟨b0, _ | ⟨b1, _ | ⟨b2, _ | ⟨b3, _ | ⟨b4, _ | ⟨b5, _ | ⟨b6, _ | ⟨b7, q⟩⟩⟩⟩⟩⟩⟩⟩ <;>
    try (exfalso; simp only [List.length_nil, List.length_cons] at h2; omega)
  have hr : r = [] := by
    simp only [List.length_cons] at h1
    exact List.eq_nil_of_length_eq_zero (by omega)
  have hq : q = [] := by
    simp only [List.length_cons] at h2
    exact List.eq_nil_of_length_eq_zero (by omega)
  subst hr; subst hq
  have ha0 : a0 < 256 := hb1 a0 (by simp)
  have ha1 : a1 < 256 := hb1 a1 (by simp)
  have ha2 : a2 < 256 := hb1 a2 (by simp)
  have ha3 : a3 < 256 := hb1 a3 (by simp)
  have ha4 : a4 < 256 := hb1 a4 (by simp)
  have ha5 : a5 < 256 := hb1 a5 (by simp)
  have ha6 : a6 < 256 := hb1 a6 (by simp)
  have ha7 : a7 < 256 := hb1 a7 (by simp)
  have hc0 : b0 < 256 := hb2 b0 (by simp)
  have hc1 : b1 < 256 := hb2 b1 (by simp)
  have hc2 : b2 < 256 := hb2 b2 (by simp)
  have hc3 : b3 < 256 := hb2 b3 (by simp)
  have hc4 : b4 < 256 := hb2 b4 (by simp)
  have hc5 : b5 < 256 := hb2 b5 (by simp)
  have hc6 : b6 < 256 := hb2 b6 (by simp)
  have hc7 : b7 < 256 := hb2 b7 (by simp)
  have hd : ∀ u v : Nat, u < 256 → v < 256 →
      nslice (u % 16) (v % 16) + nslice (u / 16) (v / 16) ≤ 24 := by
    intro u v hu hv
    have hA := (fact_nslice (u % 16) (by omega) (v % 16) (by omega)).2
    have hB := (fact_nslice (u / 16) (by omega) (v / 16) (by omega)).2
    omega
  have hH := horizontal_sum8
    (nslice (a0 % 16) (b0 % 16) + nslice (a0 / 16) (b0 / 16))
    (nslice (a1 % 16) (b1 % 16) + nslice (a1 / 16) (b1 / 16))
    (nslice (a2 % 16) (b2 % 16) + nslice (a2 / 16) (b2 / 16))
    (nslice (a3 % 16) (b3 % 16) + nslice (a3 / 16) (b3 / 16))
    (nslice (a4 % 16) (b4 % 16) + nslice (a4 / 16) (b4 / 16))
    (nslice (a5 % 16) (b5 % 16) + nslice (a5 / 16) (b5 / 16))
    (nslice (a6 % 16) (b6 % 16) + nslice (a6 / 16) (b6 / 16))
    (nslice (a7 % 16) (b7 % 16) + nslice (a7 / 16) (b7 / 16))
    (hd a0 b0 ha0 hc0) (hd a1 b1 ha1 hc1) (hd a2 b2 ha2 hc2) (hd a3 b3 ha3 hc3)
    (hd a4 b4 ha4 hc4) (hd a5 b5 ha5 hc5) (hd a6 b6 ha6 hc6) (hd a7 b7 ha7 hc7)
  refine Eq.trans hH ?_
  have hs : (List.zipWith byte_dibit_distance
        [a0, a1, a2, a3, a4, a5, a6, a7] [b0, b1, b2, b3, b4, b5, b6, b7]).sum
      = byte_dibit_distance a0 b0 + (byte_dibit_distance a1 b1
        + (byte_dibit_distance a2 b2 + (byte_dibit_distance a3 b3
        + (byte_dibit_distance a4 b4 + (byte_dibit_distance a5 b5
        + (byte_dibit_distance a6 b6 + (byte_dibit_distance a7 b7 + 0))))))) := rfl
  rw [hs, byte_dibit_nslice a0 b0 ha0 hc0, byte_dibit_nslice a1 b1 ha1 hc1,
      byte_dibit_nslice a2 b2 ha2 hc2, byte_dibit_nslice a3 b3 ha3 hc3,
      byte_dibit_nslice a4 b4 ha4 hc4, byte_dibit_nslice a5 b5 ha5 hc5,
      byte_dibit_nslice a6 b6 ha6 hc6, byte_dibit_nslice a7 b7 ha7 hc7]
  ring

set_option maxHeartbeats 1000000 in
lemma body_distance_chunks : ∀ (n : Nat) (b1 b2 : List Nat),
    b1.length = 8 * n → b2.length = 8 * n →
    (∀ d ∈ b1, d < 256) → (∀ d ∈ b2, d < 256) →
    pseudo_simd_body_distance b1 b2 = naive_body_distance b1 b2 := by
  intro n
  induction n with
  | zero =>
    intro b1 b2 h1 h2 _ _
    have hb1 : b1 = [] := List.eq_nil_of_length_eq_zero (by omega)
    have hb2 : b2 = [] := List.eq_nil_of_length_eq_zero (by omega)
    subst hb1; subst hb2
    rfl
  | succ m ih =>
    intro b1 b2 h1 h2 hv1 hv2
    rcases b1 with _ | ⟨a0, _ | ⟨a1, _ | ⟨a2, _ | ⟨a3, _ | ⟨a4, _ | ⟨a5, _ | ⟨a6, _ | ⟨a7, r⟩⟩⟩⟩⟩⟩⟩⟩ <;>
      try (exfalso; simp only [List.length_nil, List.length_cons] at h1; omega)
    rcases b2 with _ | ⟨b0, _ | ⟨b1', _ | ⟨b2', _ | ⟨b3, _ | ⟨b4, _ | ⟨b5, _ | ⟨b6, _ | ⟨b7, q⟩⟩⟩⟩⟩⟩⟩⟩ <;>
      try (exfalso; simp only [List.length_nil, List.length_cons] at h2; omega)
    have hps : pseudo_simd_body_distance
          (a0 :: a1 :: a2 :: a3 :: a4 :: a5 :: a6 :: a7 :: r)
          (b0 :: b1' :: b2' :: b3 :: b4 :: b5 :: b6 :: b7 :: q)
        = sub_distance_64 (word256 [a0, a1, a2, a3, a4, a5, a6, a7])
            (word256 [b0, b1', b2', b3, b4, b5, b6, b7])
          + pseudo_simd_body_distance r q := rfl
    have hns : naive_body_distance
          (a0 :: a1 :: a2 :: a3 :: a4 :: a5 :: a6 :: a7 :: r)
          (b0 :: b1' :: b2' :: b3 :: b4 :: b5 :: b6 :: b7 :: q)
        = (List.zipWith byte_dibit_distance [a0, a1, a2, a3, a4, a5, a6, a7]
            [b0, b1', b2', b3, b4, b5, b6, b7]).sum
          + naive_body_distance r q := by
      show (List.zipWith byte_dibit_distance
          (a0 :: a1 :: a2 :: a3 :: a4 :: a5 :: a6 :: a7 :: r)
          (b0 :: b1' :: b2' :: b3 :: b4 :: b5 :: b6 :: b7 :: q)).sum = _
      simp only [List.zipWith_cons_cons, List.zipWith_nil_left, List.sum_cons, List.sum_nil]
      unfold naive_body_distance
      ring
    rw [hps, hns,
        sub_distance_64_chunk [a0, a1, a2, a3, a4, a5, a6, a7]
          [b0, b1', b2', b3, b4, b5, b6, b7] rfl rfl
          (by intro d hd; apply hv1 d; simp only [List.mem_cons] at hd ⊢; tauto)
          (by intro d hd; apply hv2 d; simp only [List.mem_cons] at hd ⊢; tauto),
        ih r q (by simp only [List.length_cons] at h1; omega)
          (by simp only [List.length_cons] at h2; omega)
          (fun d hd => hv1 d (by simp only [List.mem_cons]; tauto))
          (fun d hd => hv2 d (by simp only [List.mem_cons]; tauto))]

/-- C5: on 32-byte and 64-byte bodies of bytes, the word-sliced pseudo-SIMD
body distance equals the scalar per-dibit reference total, whose per-dibit
contribution is the absolute difference except that a difference of 3
contributes the outlier value 6. -/
theorem claim_C5_body_distance (b1 b2 : List Nat)
    (hlen : b1.length = b2.length) (hsz : b1.length = 32 ∨ b1.length = 64)
    (hv1 : ∀ d ∈ b1, d < 256) (hv2 : ∀ d ∈ b2, d < 256) :
    pseudo_simd_body_distance b1 b2 = naive_body_distance b1 b2 ∧
    (∀ x y, x < 4 → y < 4 →
      distance_dibits x y = if max x y - min x y = 3 then 6 else max x y - min x y) := by
  constructor
  · rcases hsz with h | h
    · exact body_distance_chunks 4 b1 b2 (by omega) (by omega) hv1 hv2
    · exact body_distance_chunks 8 b1 b2 (by omega) (by omega) hv1 hv2
  · intro x y _ _
    rfl

theorem claim_C5_body_distance_witness :
    pseudo_simd_body_distance (List.range 32) ((List.range 32).map (fun i => 255 - i))
      = naive_body_distance (List.range 32) ((List.range 32).map (fun i => 255 - i)) :=
  (claim_C5_body_distance (List.range 32) ((List.range 32).map (fun i => 255 - i))
    (by simp) (by simp) (by decide) (by decide)).1
